import Mathlib

/-!
Verification of the mp3tools metadata scripts.

This file gives a shallow embedding, in Lean, of the pure data-processing
core of the repository's Python scripts:

* `transfer-mp3md.py` (both the basic variant and the extended
  `mp3metadata` variant): ID3 frame selection on import, disc-number
  fallback on export, CSV append/union, synced-lyric cue JSON
  serialization, and the per-row import loop;
* `md-csv2json.py`: the CSV → composite-JSON-index conversion.

Machine integers are modelled as `Int`/`Nat` (Python integers are
unbounded, so no wrap-around is involved), Python strings as Lean
`String`/`List Char` restricted to Unicode scalar values, fallible code as
`Option`/`Except`.
-/

namespace Mp3Tools

/-! ## Python `int()` on a decimal string

`md-csv2json.py` calls the built-in `int()` on stripped cell values.  For a
base-10 string, `int()` accepts an optional sign followed by decimal
digits, with single underscores permitted between digits; anything else
raises `ValueError`.  We model ASCII decimal digits and ASCII whitespace
stripping (the scripts only ever feed it ASCII numerals). -/

/-- Python `str.strip` whitespace, restricted to the ASCII whitespace
characters (the scripts strip tag texts and CSV cells, whose padding in
practice is ASCII): space, tab, newline, carriage return, vertical tab,
form feed. -/
def isStripWs (c : Char) : Bool :=
  c == ' ' || c == '\t' || c == '\n' || c == '\x0d' || c == '\x0b' || c == '\x0c'

/-- Python `s.strip()` on the character list: drop leading and trailing
whitespace. -/
def stripChars (l : List Char) : List Char :=
  ((l.dropWhile isStripWs).reverse.dropWhile isStripWs).reverse

/-- Python `s.strip()`. -/
def pyStrip (s : String) : String := ⟨stripChars s.data⟩

/-- Value of an ASCII decimal digit, `none` for any other character. -/
def digitVal? (c : Char) : Option Nat :=
  if '0' ≤ c ∧ c ≤ '9' then some (c.toNat - 48) else none

/-- Digits of a Python integer literal after the first digit: decimal
digits with single underscores allowed between two digits. -/
def pyDigitsCore : List Char → Nat → Option Nat
  | [], acc => some acc
  | '_' :: c :: rest, acc =>
    match digitVal? c with
    | some d => pyDigitsCore rest (acc * 10 + d)
    | none => none
  | c :: rest, acc =>
    match digitVal? c with
    | some d => pyDigitsCore rest (acc * 10 + d)
    | none => none

/-- An unsigned Python decimal integer literal: at least one digit, single
underscores allowed between digits (never leading or trailing). -/
def parsePyNat : List Char → Option Nat
  | [] => none
  | c :: rest =>
    match digitVal? c with
    | some d => pyDigitsCore rest d
    | none => none

/-- Model of Python `int(s)` for base 10: strip whitespace, optional sign,
then an unsigned decimal literal.  `none` models `ValueError`. -/
def parsePyInt (s : String) : Option Int :=
  match (pyStrip s).data with
  | '+' :: rest => (parsePyNat rest).map Int.ofNat
  | '-' :: rest => (parsePyNat rest).map (fun n => -(n : Int))
  | l => (parsePyNat l).map Int.ofNat

/-- A Python value as it lands in the JSON index: `None`, an `int`, or a
`str`. -/
inductive PyVal where
  | none
  | int (n : Int)
  | str (s : String)
deriving DecidableEq, Repr

/-- Disc-number parsing from `md-csv2json.py` (`convert_csvs_to_json`):
`disc_val = row.get('disc', '').strip()`, then
`int(disc_val) if disc_val else None`, falling back to `disc_val` itself
when `int` raises `ValueError`. -/
def discParse (raw : String) : PyVal :=
  let disc_val := (pyStrip raw)
  if disc_val = "" then .none
  else
    match parsePyInt disc_val with
    | some n => .int n
    | Option.none => .str disc_val

/-! ## `md-csv2json.py`: CSV rows → composite JSON index -/

/-- Index (counted from the end) of the last occurrence of `x` in `l`,
`-1` when absent: Python `str.rfind`. -/
def rfind (x : Char) (l : List Char) : Int :=
  match l.reverse.indexOf? x with
  | some i => (l.length : Int) - 1 - i
  | none => -1

/-- Root part of CPython `posixpath.splitext`: cut at the last dot, unless
that dot only leads the basename (everything between the last separator
and the last dot is dots). -/
def splitextRoot (p : List Char) : List Char :=
  let sepIndex := rfind '/' p
  let dotIndex := rfind '.' p
  if sepIndex < dotIndex then
    let stem := (p.take dotIndex.toNat).drop (sepIndex + 1).toNat
    if stem.any (fun c => c != '.') then p.take dotIndex.toNat else p
  else p

/-- `os.path.splitext(s)[0]`. -/
def splitextBase (s : String) : String := ⟨splitextRoot s.data⟩

/-- The static Farsi-name → acronym lookup table of `md-csv2json.py`. -/
def GENRE_ACRONYMS : List (String × String) := [
  ("دستگاه ماهور", "MHUR"),
  ("دستگاه چهارگاه", "CHGH"),
  ("دستگاه سه‌گاه", "SGAH"),
  ("دستگاه همایون", "HMYN"),
  ("آواز اصفهان", "H-ESF"),
  ("دستگاه نوا", "NAVA"),
  ("دستگاه راست‌پنجگاه", "RSTP"),
  ("دستگاه شور", "SHUR"),
  ("آواز ابوعطا", "S-ABT"),
  ("آواز افشاری", "S-AFS"),
  ("آواز بیات‌ترک", "S-TRK"),
  ("آواز دشتی", "S-DST")]

/-- `GENRE_ACRONYMS.get(name)`: exact string match. -/
def acronymOf (name : String) : Option String :=
  (GENRE_ACRONYMS.find? (fun p => p.1 == name)).map (·.2)

/-- One CSV row as `convert_csvs_to_json` reads it: every cell a string
(`keep_default_na=False`), missing cells modelled as `""` (the `row.get`
defaults). -/
structure CsvRow where
  album : String := ""
  genre : String := ""
  filename : String := ""
  title : String := ""
  artist : String := ""
  composer : String := ""
  comments : String := ""
  disc : String := ""
  length : String := ""
  bitrate : String := ""
deriving DecidableEq, Repr

/-- One value of the combined JSON object. -/
structure JsonEntry where
  filename : String
  title : String
  artist : String
  genre : String
  composer : String
  poet : String
  length : Option Int
  disc : PyVal
  bitrate : Option Int
deriving DecidableEq, Repr

/-- `int(v) if pd.notna(v) and v != '' else None`; a `ValueError` from
`int` is uncaught here (`.error`). -/
def intCell (v : String) : Except String (Option Int) :=
  if v = "" then .ok Option.none
  else
    match parsePyInt v with
    | some n => .ok (some n)
    | Option.none => .error "ValueError"

/-- `row.get('album','').strip() or row.get('genre','').strip()`. -/
def genreName (r : CsvRow) : String :=
  if (pyStrip r.album) ≠ "" then (pyStrip r.album) else (pyStrip r.genre)

/-- Body of the per-row loop of `convert_csvs_to_json`: skip (`.ok none`)
when the acronym or filename is missing, otherwise build the composite key
and the metadata object; an uncaught `ValueError` from the `int` calls on
`length`/`bitrate` is `.error`. -/
def procRow (r : CsvRow) : Except String (Option (String × JsonEntry)) :=
  let filename := (pyStrip r.filename)
  match acronymOf (genreName r) with
  | Option.none => .ok Option.none
  | some acronym =>
    if filename = "" then .ok Option.none
    else
      let base_name := splitextBase filename
      let key := acronym ++ "|" ++ base_name
      let disc := discParse r.disc
      match intCell r.length with
      | .error e => .error e
      | .ok length =>
        match intCell r.bitrate with
        | .error e => .error e
        | .ok bitrate =>
          .ok (some (key,
            { filename := filename
              title := (pyStrip r.title)
              artist := (pyStrip r.artist)
              genre := (pyStrip r.album)
              composer := (pyStrip r.composer)
              poet := (pyStrip r.comments)
              length := length
              disc := disc
              bitrate := bitrate }))

/-- `combined[key] = value` on a Python dict: replace in place if the key
exists, else append. -/
def dictInsert (m : List (String × JsonEntry)) (k : String) (v : JsonEntry) :
    List (String × JsonEntry) :=
  if m.any (fun p => p.1 == k) then
    m.map (fun p => if p.1 == k then (k, v) else p)
  else m ++ [(k, v)]

/-- `combined.get(key)`. -/
def dictGet (m : List (String × JsonEntry)) (k : String) : Option JsonEntry :=
  (m.find? (fun p => p.1 == k)).map (·.2)

/-- The row loop of `convert_csvs_to_json` over the concatenated rows of
all input CSVs, threading the `combined` dict. -/
def convertRowsAux (m : List (String × JsonEntry)) :
    List CsvRow → Except String (List (String × JsonEntry))
  | [] => .ok m
  | r :: rs =>
    match procRow r with
    | .error e => .error e
    | .ok Option.none => convertRowsAux m rs
    | .ok (some (k, v)) => convertRowsAux (dictInsert m k v) rs

/-- `convert_csvs_to_json`, from the rows of the collected CSV files (in
file-then-row order) to the combined dict. -/
def convert_csvs_to_json (rows : List CsvRow) :
    Except String (List (String × JsonEntry)) :=
  convertRowsAux [] rows

/-- The written output file: `json.dump` runs only when the row loop
finished without an exception. -/
def convertOutput (rows : List CsvRow) : Option (List (String × JsonEntry)) :=
  (convert_csvs_to_json rows).toOption

/-! ## C8: disc-cell parsing -/

/-- C8 (counterexample): the claim says a non-integer disc cell "is kept
as the original string unchanged", but `convert_csvs_to_json` strips the
cell first and keeps the *trimmed* string: the raw cell `" 3/5"` comes out
as `"3/5"`, not as the original `" 3/5"`. -/
theorem c8_counterexample :
    discParse " 3/5" = PyVal.str "3/5" ∧ (" 3/5" : String) ≠ "3/5" := by
  constructor
  · decide
  · decide

/-- C8 (amended): for every raw disc cell, if the trimmed value is a valid
base-10 integer literal it parses to that integer; if the trimmed value is
non-empty but not a valid integer literal the *trimmed* string is kept
(neither coerced nor rejected); if the trimmed value is empty the result
is `None`. -/
theorem c8_amended (raw : String) :
    ((pyStrip raw) = "" → discParse raw = PyVal.none)
    ∧ (∀ n : Int, parsePyInt (pyStrip raw) = some n → (pyStrip raw) ≠ "" →
        discParse raw = PyVal.int n)
    ∧ (parsePyInt (pyStrip raw) = Option.none → (pyStrip raw) ≠ "" →
        discParse raw = PyVal.str (pyStrip raw)) := by
  refine ⟨fun h => ?_, fun n hn hne => ?_, fun hn hne => ?_⟩
  · simp [discParse, h]
  · simp [discParse, hne, hn]
  · simp [discParse, hne, hn]

/-- C8 (witness): the amended theorem applied at the spec's own three
sample inputs `"3"`, `"3/5"` and `""`. -/
theorem c8_witness :
    discParse "3" = PyVal.int 3 ∧ discParse "3/5" = PyVal.str "3/5"
    ∧ discParse "" = PyVal.none :=
  ⟨(c8_amended "3").2.1 3 (by decide) (by decide),
   (c8_amended "3/5").2.2 (by decide) (by decide),
   (c8_amended "").1 (by decide)⟩

/-! ## Lemmas on the combined dict and the row loop -/

theorem dictGet_dictInsert (m : List (String × JsonEntry)) (k : String) (v : JsonEntry) :
    dictGet (dictInsert m k v) k = some v := by
  induction m with
  | nil => simp [dictInsert, dictGet]
  | cons p t ih =>
    by_cases hp : p.1 = k
    · simp [dictInsert, dictGet, hp]
    · by_cases ht : t.any (fun q => q.1 == k)
      · have ih' := ih
        simp only [dictInsert, ht, if_true] at ih'
        simpa [dictInsert, dictGet, hp, ht] using ih'
      · have ih' := ih
        simp only [dictInsert, ht, if_false] at ih'
        simpa [dictInsert, dictGet, hp, ht] using ih'

theorem convertRowsAux_append (l1 l2 : List CsvRow) (m : List (String × JsonEntry)) :
    convertRowsAux m (l1 ++ l2) =
      match convertRowsAux m l1 with
      | .error e => .error e
      | .ok m1 => convertRowsAux m1 l2 := by
  induction l1 generalizing m with
  | nil => simp [convertRowsAux]
  | cons a t ih =>
    simp only [List.cons_append, convertRowsAux]
    cases hp : procRow a with
    | error e => rfl
    | ok o =>
      cases o with
      | none => exact ih m
      | some kv => exact ih (dictInsert m kv.1 kv.2)

theorem convertRowsAux_error_of_mem (rows : List CsvRow) (r : CsvRow) (e : String)
    (hmem : r ∈ rows) (hr : procRow r = .error e) :
    ∀ m, ∃ e', convertRowsAux m rows = .error e' := by
  induction rows with
  | nil => cases hmem
  | cons a t ih =>
    intro m
    rcases List.mem_cons.mp hmem with h | h
    · subst h
      exact ⟨e, by simp [convertRowsAux, hr]⟩
    · cases hp : procRow a with
      | error e2 => exact ⟨e2, by simp [convertRowsAux, hp]⟩
      | ok o =>
        cases o with
        | none =>
          obtain ⟨e', he'⟩ := ih h m
          exact ⟨e', by simp [convertRowsAux, hp, he']⟩
        | some kv =>
          obtain ⟨e', he'⟩ := ih h (dictInsert m kv.1 kv.2)
          exact ⟨e', by simp [convertRowsAux, hp, he']⟩

/-! ## C9: composite keys, exclusion, last-write-wins -/

/-- A row whose `album` cell is empty but whose `genre` cell names a
mapped genre; the claim says a row whose album matches no lookup entry is
excluded, yet this row lands in the index. -/
def c9row : CsvRow := { genre := "دستگاه شور", filename := "a.mp3" }

/-- C9 (counterexample): `c9row`'s album (`""`) matches no lookup entry,
but `convert_csvs_to_json` falls back to the genre cell and therefore
*includes* the row, under key `"SHUR|a"` — refuting "every row whose album
matches no lookup entry is silently excluded". -/
theorem c9_counterexample :
    (convert_csvs_to_json [c9row]).toOption =
      some [("SHUR|a",
        { filename := "a.mp3", title := "", artist := "", genre := "",
          composer := "", poet := "", length := Option.none,
          disc := PyVal.none, bitrate := Option.none })] := by
  decide

/-- C9 (amended): every included row's key is the acronym, a literal
`"|"`, and the (stripped) filename with its extension removed; a row is
silently excluded when the *derived* name — the trimmed album cell if
non-empty, else the trimmed genre cell — matches no lookup entry, or when
its filename is empty; and whenever a later row resolves to an existing
composite key its value entirely replaces the earlier one
(last-write-wins, no field-level merge). -/
theorem c9_amended :
    (∀ r k v, procRow r = .ok (some (k, v)) →
      ∃ acr, acronymOf (genreName r) = some acr
        ∧ k = acr ++ "|" ++ splitextBase (pyStrip r.filename))
    ∧ (∀ r, (acronymOf (genreName r) = Option.none ∨ pyStrip r.filename = "") →
      procRow r = .ok Option.none)
    ∧ (∀ m pre post r, procRow r = .ok Option.none →
      convertRowsAux m (pre ++ r :: post) = convertRowsAux m (pre ++ post))
    ∧ (∀ rows r k v m', procRow r = .ok (some (k, v)) →
      convert_csvs_to_json (rows ++ [r]) = .ok m' → dictGet m' k = some v) := by
  refine ⟨?_, ?_, ?_, ?_⟩
  · intro r k v h
    cases hA : acronymOf (genreName r) with
    | none => simp [procRow, hA] at h
    | some acr =>
      simp only [procRow, hA] at h
      by_cases hF : pyStrip r.filename = ""
      · simp [hF] at h
      · simp only [hF, if_false, if_neg hF] at h
        cases hL : intCell r.length with
        | error e => rw [hL] at h; exact absurd h (by simp)
        | ok len =>
          rw [hL] at h
          cases hB : intCell r.bitrate with
          | error e => rw [hB] at h; exact absurd h (by simp)
          | ok bit =>
            rw [hB] at h
            simp only [Except.ok.injEq, Option.some.injEq, Prod.mk.injEq] at h
            exact ⟨acr, rfl, h.1.symm⟩
  · intro r h
    rcases h with h | h
    · simp [procRow, h]
    · cases hA : acronymOf (genreName r) with
      | none => simp [procRow, hA]
      | some acr => simp [procRow, hA, h]
  · intro m pre post r hr
    induction pre generalizing m with
    | nil => simp [convertRowsAux, hr]
    | cons a t ih =>
      simp only [List.cons_append, convertRowsAux]
      cases hp : procRow a with
      | error e => rfl
      | ok o =>
        cases o with
        | none => exact ih m
        | some kv => exact ih (dictInsert m kv.1 kv.2)
  · intro rows r k v m' hr hconv
    unfold convert_csvs_to_json at hconv
    rw [convertRowsAux_append] at hconv
    cases hrows : convertRowsAux [] rows with
    | error e => rw [hrows] at hconv; exact absurd hconv (by simp)
    | ok m1 =>
      rw [hrows] at hconv
      simp only [convertRowsAux, hr] at hconv
      cases hconv
      exact dictGet_dictInsert m1 k v

/-- The spec's own example row: album naming the `"SHUR"` entry, filename
`"01 Track.mp3"`. -/
def c9rowA : CsvRow := { album := "دستگاه شور", filename := "01 Track.mp3", artist := "X" }

/-- A second row colliding with `c9rowA` on the composite key. -/
def c9rowB : CsvRow := { album := "دستگاه شور", filename := "01 Track.mp3", bitrate := "128" }

/-- The entry `c9rowB` produces. -/
def c9entryB : JsonEntry :=
  { filename := "01 Track.mp3", title := "", artist := "", genre := "دستگاه شور",
    composer := "", poet := "", length := Option.none, disc := PyVal.none,
    bitrate := some 128 }

/-- C9 (witness): the amended theorem applied at the spec's own example
(filename `"01 Track.mp3"` in acronym `"SHUR"`), at a row with an unmapped
name, and at two rows colliding on one key. -/
theorem c9_witness :
    (∃ acr, acronymOf (genreName c9rowA) = some acr
      ∧ "SHUR|01 Track" = acr ++ "|" ++ splitextBase (pyStrip c9rowA.filename))
    ∧ procRow { album := "Unknown Album", filename := "01 Track.mp3" } = .ok Option.none
    ∧ dictGet [("SHUR|01 Track", c9entryB)] "SHUR|01 Track" = some c9entryB := by
  refine ⟨c9_amended.1 c9rowA "SHUR|01 Track"
      { filename := "01 Track.mp3", title := "", artist := "X", genre := "دستگاه شور",
        composer := "", poet := "", length := Option.none, disc := PyVal.none,
        bitrate := Option.none } (by rfl),
    c9_amended.2.1 { album := "Unknown Album", filename := "01 Track.mp3" } (Or.inl (by decide)),
    c9_amended.2.2.2 [c9rowA] c9rowB "SHUR|01 Track" c9entryB [("SHUR|01 Track", c9entryB)]
      (by rfl) (by rfl)⟩

/-! ## C10: a malformed length cell aborts the whole conversion -/

/-- C10 (confirmed): if any row that maps to an acronym and has a
non-empty filename carries a non-empty `length` cell that is not a valid
integer literal (such as the exporter's default `"m:ss"` strings), the
conversion hits an uncaught `ValueError` and terminates without writing
any output, rather than skipping the row and continuing. -/
theorem c10_bad_length_aborts (rows : List CsvRow) (r : CsvRow)
    (hmem : r ∈ rows)
    (hA : acronymOf (genreName r) ≠ Option.none)
    (hF : pyStrip r.filename ≠ "")
    (hL : r.length ≠ "")
    (hP : parsePyInt r.length = Option.none) :
    convertOutput rows = Option.none := by
  have hr : procRow r = .error "ValueError" := by
    obtain ⟨acr, hacr⟩ := Option.ne_none_iff_exists'.mp hA
    simp [procRow, hacr, hF, intCell, hL, hP]
  obtain ⟨e', he'⟩ := convertRowsAux_error_of_mem rows r "ValueError" hmem hr []
  simp [convertOutput, convert_csvs_to_json, he', Except.toOption]

/-- C10 (witness): a single row with `length = "3:45"` (the exporter's
default mm:ss format for 225 seconds) aborts the conversion. -/
theorem c10_witness :
    convertOutput [{ album := "دستگاه شور", filename := "x.mp3", length := "3:45" }] =
      Option.none :=
  c10_bad_length_aborts _ _ (List.mem_singleton.mpr rfl) (by decide) (by decide)
    (by decide) (by decide)

/-! ## Synced-lyric cue serialization

Export builds `entries = [{"ts_ms": ts, "text": text}, ...]` and stores
`json.dumps(entries, ensure_ascii=False)` in the `synced_lyrics` cell;
the import runs `json.loads` on the cell and reads back `e["ts_ms"]` and
`e["text"]` of every element.  The encoder below reproduces CPython's
`json.dumps` byte-for-byte on such inputs (`ensure_ascii=False`, default
separators); the decoder reproduces `json.loads` on the fragment these
cells live in — arrays of flat objects whose values are integers or
strings — with `\uXXXX` escapes restricted to Unicode scalar values (the
encoder never emits surrogate halves), followed by the list-comprehension
field extraction. -/

/-- One timed lyric cue. -/
structure Cue where
  ts_ms : Int
  text : String
deriving DecidableEq, Repr

/-- Lower-case hexadecimal digit, as `'\x7bn:04x\x7d'.format` prints. -/
def hexDigitChar (n : Nat) : Char :=
  if n < 10 then Char.ofNat (48 + n) else Char.ofNat (87 + n)

/-- `json.dumps` escaping of one character with `ensure_ascii=False`:
only backslash, double quote and control characters below U+0020 are
escaped; everything else is written raw. -/
def escChar (c : Char) : List Char :=
  if c = '"' then ['\\', '"']
  else if c = '\\' then ['\\', '\\']
  else if c = '\n' then ['\\', 'n']
  else if c = '\x0d' then ['\\', 'r']
  else if c = '\t' then ['\\', 't']
  else if c = '\x08' then ['\\', 'b']
  else if c = '\x0c' then ['\\', 'f']
  else if c.toNat < 32 then
    ['\\', 'u', '0', '0', hexDigitChar (c.toNat / 16), hexDigitChar (c.toNat % 16)]
  else [c]

/-- `json.dumps` escaping of a whole string body. -/
def escString : List Char → List Char
  | [] => []
  | c :: cs => escChar c ++ escString cs

/-- Decimal digits of a positive number, most significant first; the fuel
only bounds the recursion depth (`n` itself is always enough). -/
def natDigitsAux : Nat → Nat → List Char
  | 0, _ => []
  | fuel + 1, n =>
    if n = 0 then [] else natDigitsAux fuel (n / 10) ++ [Char.ofNat (48 + n % 10)]

/-- Decimal digits of a natural number, most significant first, as Python
prints an `int`. -/
def natToChars (n : Nat) : List Char :=
  if n = 0 then ['0'] else natDigitsAux (n + 1) n

/-- Python's decimal rendering of an `int`. -/
def intToChars (n : Int) : List Char :=
  if n < 0 then '-' :: natToChars n.natAbs else natToChars n.toNat

/-- `json.dumps(\x7b"ts_ms": ts, "text": text\x7d, ensure_ascii=False)`:
keys in insertion order, default separators. -/
def encodeCue (c : Cue) : List Char :=
  ['{', '"', 't', 's', '_', 'm', 's', '"', ':', ' '] ++ intToChars c.ts_ms
    ++ [',', ' ', '"', 't', 'e', 'x', 't', '"', ':', ' ', '"']
    ++ escString c.text.data ++ ['"', '}']

/-- The comma-separated array body of `json.dumps` on the entry list. -/
def encodeCuesList : List Cue → List Char
  | [] => []
  | [c] => encodeCue c
  | c :: cs => encodeCue c ++ [',', ' '] ++ encodeCuesList cs

/-- `EncodeCues`: the string stored in the `synced_lyrics` cell. -/
def encodeCues (l : List Cue) : String :=
  ⟨'[' :: (encodeCuesList l ++ [']'])⟩

/-- JSON whitespace accepted by `json.loads` between tokens. -/
def isJsonWs (c : Char) : Bool :=
  c == ' ' || c == '\t' || c == '\n' || c == '\x0d'

/-- Skip JSON whitespace. -/
def skipWs : List Char → List Char
  | [] => []
  | c :: rest => if isJsonWs c then skipWs rest else c :: rest

/-- Value of a hexadecimal digit. -/
def hexVal? (c : Char) : Option Nat :=
  if '0' ≤ c ∧ c ≤ '9' then some (c.toNat - 48)
  else if 'a' ≤ c ∧ c ≤ 'f' then some (c.toNat - 87)
  else if 'A' ≤ c ∧ c ≤ 'F' then some (c.toNat - 55)
  else none

/-- The two-character JSON escapes. -/
def escapeMap? (c : Char) : Option Char :=
  if c = '"' then some '"'
  else if c = '\\' then some '\\'
  else if c = '/' then some '/'
  else if c = 'b' then some '\x08'
  else if c = 'f' then some '\x0c'
  else if c = 'n' then some '\n'
  else if c = 'r' then some '\x0d'
  else if c = 't' then some '\t'
  else none

/-- JSON string body after the opening quote, as `json.loads` scans it
(strict mode: raw control characters are rejected); returns the decoded
body and the input after the closing quote.  A `\uXXXX` escape outside
the scalar range is rejected here (the repository's encoder never
produces one). -/
def parseStringBody : List Char → Option (List Char × List Char)
  | [] => none
  | c :: rest =>
    if c = '"' then some ([], rest)
    else if c = '\\' then
      match rest with
      | [] => none
      | e :: rest2 =>
        if e = 'u' then
          match rest2 with
          | h1 :: h2 :: h3 :: h4 :: rest3 =>
            match hexVal? h1, hexVal? h2, hexVal? h3, hexVal? h4 with
            | some a, some b, some cc, some d =>
              let code := ((a * 16 + b) * 16 + cc) * 16 + d
              if code.isValidChar then
                (parseStringBody rest3).map (fun p => (Char.ofNat code :: p.1, p.2))
              else none
            | _, _, _, _ => none
          | _ => none
        else
          match escapeMap? e with
          | some d => (parseStringBody rest2).map (fun p => (d :: p.1, p.2))
          | none => none
    else if c.toNat < 32 then none
    else (parseStringBody rest).map (fun p => (c :: p.1, p.2))

/-- ASCII decimal digit test. -/
def isDigitCh (c : Char) : Bool := decide (48 ≤ c.toNat ∧ c.toNat ≤ 57)

/-- Value of a big-endian digit string. -/
def digitsToNat (ds : List Char) : Nat :=
  ds.foldl (fun acc c => acc * 10 + (c.toNat - 48)) 0

/-- JSON unsigned integer: a non-empty digit run with no redundant leading
zero, valued and returned with the rest of the input. -/
def parseJsonNat (l : List Char) : Option (Nat × List Char) :=
  let ds := l.takeWhile isDigitCh
  let rest := l.dropWhile isDigitCh
  if ds = [] then none
  else if ds.headD '0' = '0' ∧ ds.length > 1 then none
  else some (digitsToNat ds, rest)

/-- A JSON value of the cue fragment: an integer or a string. -/
inductive JVal where
  | jint (n : Int)
  | jstr (s : String)
deriving DecidableEq, Repr

/-- One JSON value at the head of the input: a string, or an optionally
negated integer. -/
def parseJsonValue (l : List Char) : Option (JVal × List Char) :=
  match l with
  | [] => none
  | c :: rest =>
    if c = '"' then (parseStringBody rest).map (fun p => (JVal.jstr ⟨p.1⟩, p.2))
    else if c = '-' then (parseJsonNat rest).map (fun p => (JVal.jint (-(p.1 : Int)), p.2))
    else if isDigitCh c then (parseJsonNat (c :: rest)).map (fun p => (JVal.jint (p.1 : Int), p.2))
    else none

/-- The member list of a JSON object after the first key's opening quote
position: `"key": value` pairs separated by commas, ended by the closing
brace.  Fuel bounds the number of members. -/
def parseMembersLoop : Nat → List Char → Option (List (String × JVal) × List Char)
  | 0, _ => none
  | fuel + 1, l =>
    match l with
    | [] => none
    | c :: rest =>
      if c = '"' then
        match parseStringBody rest with
        | some (k, r1) =>
          match skipWs r1 with
          | [] => none
          | c2 :: r2 =>
            if c2 = ':' then
              match parseJsonValue (skipWs r2) with
              | some (v, r3) =>
                match skipWs r3 with
                | [] => none
                | c3 :: r4 =>
                  if c3 = ',' then
                    (parseMembersLoop fuel (skipWs r4)).map
                      (fun p => ((⟨k⟩, v) :: p.1, p.2))
                  else if c3 = '}' then some ([(⟨k⟩, v)], r4)
                  else none
              | none => none
            else none
        | none => none
      else none

/-- A JSON object of the cue fragment, starting at its opening brace. -/
def parseObj (fuel : Nat) (l : List Char) : Option (List (String × JVal) × List Char) :=
  match l with
  | [] => none
  | c :: rest =>
    if c = '{' then
      match skipWs rest with
      | [] => none
      | c2 :: r =>
        if c2 = '}' then some ([], r)
        else parseMembersLoop fuel (c2 :: r)
    else none

/-- The element list of a JSON array of objects, after the first
element's position (not empty); fuel bounds the number of elements. -/
def parseItemsLoop : Nat → List Char → Option (List (List (String × JVal)) × List Char)
  | 0, _ => none
  | fuel + 1, l =>
    match parseObj (fuel + 1) l with
    | some (m, r) =>
      match skipWs r with
      | [] => none
      | c :: r2 =>
        if c = ',' then (parseItemsLoop fuel (skipWs r2)).map (fun p => (m :: p.1, p.2))
        else if c = ']' then some ([m], r2)
        else none
    | none => none

/-- The element list of a JSON array of objects, after the opening
bracket and any whitespace. -/
def parseItems (fuel : Nat) (l : List Char) : Option (List (List (String × JVal)) × List Char) :=
  match l with
  | [] => parseItemsLoop fuel []
  | c :: rest =>
    if c = ']' then some ([], rest) else parseItemsLoop fuel (c :: rest)

/-- `e[k]` on a decoded JSON object (a Python dict: for duplicate keys the
last member wins). -/
def jLookup (m : List (String × JVal)) (k : String) : Option JVal :=
  (m.reverse.find? (fun p => p.1 == k)).map (·.2)

/-- The import loop's per-entry extraction `e["ts_ms"]`, `e["text"]`: both
keys must be present, with an integer timestamp and a string text (any
other shape makes the Python import crash on this row's cell). -/
def objToCue (m : List (String × JVal)) : Option Cue :=
  match jLookup m "ts_ms", jLookup m "text" with
  | some (JVal.jint n), some (JVal.jstr s) => some ⟨n, s⟩
  | _, _ => none

/-- `DecodeCues`: `json.loads` on the cell (restricted to the cue
fragment: one array of flat objects, nothing after it) followed by the
per-entry field extraction; `none` models the uncaught exception. -/
def decodeCues (s : String) : Option (List Cue) :=
  match skipWs s.data with
  | [] => none
  | c :: rest =>
    if c = '[' then
      match parseItems (s.data.length + 1) (skipWs rest) with
      | some (ms, r) =>
        if skipWs r = [] then ms.mapM objToCue else none
      | none => none
    else none

/-! ## Round-trip of the cue codec -/

theorem skipWs_not_ws {c : Char} (l : List Char) (h : isJsonWs c = false) :
    skipWs (c :: l) = c :: l := by
  simp [skipWs, h]

theorem char_toNat_ofNat {n : Nat} (h : n.isValidChar) : (Char.ofNat n).toNat = n := by
  simp [Char.ofNat, h, Char.toNat, Char.ofNatAux, UInt32.toNat, UInt32.ofNat']

theorem hexVal?_hexDigitChar : ∀ d < 16, hexVal? (hexDigitChar d) = some d := by
  decide

theorem parseStringBody_esc (e d : Char) (t : List Char)
    (hu : e ≠ 'u') (he : escapeMap? e = some d) :
    parseStringBody ('\\' :: e :: t) = (parseStringBody t).map (fun p => (d :: p.1, p.2)) := by
  rw [parseStringBody.eq_def]
  dsimp only
  rw [if_neg (show ¬ (('\\' : Char) = '"') by decide),
    if_pos (show ('\\' : Char) = '\\' from rfl), if_neg hu, he]

theorem parseStringBody_escString (s rest : List Char) :
    parseStringBody (escString s ++ '"' :: rest) = some (s, rest) := by
  induction s with
  | nil =>
    show parseStringBody ('"' :: rest) = some ([], rest)
    rw [parseStringBody.eq_def]
    dsimp only
    rw [if_pos (show ('"' : Char) = '"' from rfl)]
  | cons c cs ih =>
    show parseStringBody ((escChar c ++ escString cs) ++ '"' :: rest) = _
    rw [List.append_assoc]
    by_cases h1 : c = '"'
    · subst h1
      show parseStringBody ('\\' :: '"' :: (escString cs ++ '"' :: rest)) = _
      rw [parseStringBody_esc '"' '"' _ (by decide) (by decide), ih]
      rfl
    · by_cases h2 : c = '\\'
      · subst h2
        show parseStringBody ('\\' :: '\\' :: (escString cs ++ '"' :: rest)) = _
        rw [parseStringBody_esc '\\' '\\' _ (by decide) (by decide), ih]
        rfl
      · by_cases h3 : c = '\n'
        · subst h3
          show parseStringBody ('\\' :: 'n' :: (escString cs ++ '"' :: rest)) = _
          rw [parseStringBody_esc 'n' '\n' _ (by decide) (by decide), ih]
          rfl
        · by_cases h4 : c = '\x0d'
          · subst h4
            show parseStringBody ('\\' :: 'r' :: (escString cs ++ '"' :: rest)) = _
            rw [parseStringBody_esc 'r' '\x0d' _ (by decide) (by decide), ih]
            rfl
          · by_cases h5 : c = '\t'
            · subst h5
              show parseStringBody ('\\' :: 't' :: (escString cs ++ '"' :: rest)) = _
              rw [parseStringBody_esc 't' '\t' _ (by decide) (by decide), ih]
              rfl
            · by_cases h6 : c = '\x08'
              · subst h6
                show parseStringBody ('\\' :: 'b' :: (escString cs ++ '"' :: rest)) = _
                rw [parseStringBody_esc 'b' '\x08' _ (by decide) (by decide), ih]
                rfl
              · by_cases h7 : c = '\x0c'
                · subst h7
                  show parseStringBody ('\\' :: 'f' :: (escString cs ++ '"' :: rest)) = _
                  rw [parseStringBody_esc 'f' '\x0c' _ (by decide) (by decide), ih]
                  rfl
                · by_cases h8 : c.toNat < 32
                  · have hv1 : hexVal? (hexDigitChar (c.toNat / 16)) = some (c.toNat / 16) :=
                      hexVal?_hexDigitChar _ (by omega)
                    have hv2 : hexVal? (hexDigitChar (c.toNat % 16)) = some (c.toNat % 16) :=
                      hexVal?_hexDigitChar _ (by omega)
                    have hvalid : (c.toNat).isValidChar := Or.inl (by omega)
                    have step : ∀ a b t, parseStringBody ('\\' :: 'u' :: '0' :: '0' :: a :: b :: t) =
                        match hexVal? a, hexVal? b with
                        | some x, some y =>
                          if (((0 * 16 + 0) * 16 + x) * 16 + y).isValidChar then
                            (parseStringBody t).map
                              (fun p => (Char.ofNat (((0 * 16 + 0) * 16 + x) * 16 + y) :: p.1, p.2))
                          else none
                        | _, _ => none := by
                      intro a b t
                      rw [parseStringBody.eq_def]
                      dsimp only
                      rw [if_neg (show ¬ (('\\' : Char) = '"') by decide),
                        if_pos (show ('\\' : Char) = '\\' from rfl),
                        if_pos (show ('u' : Char) = 'u' from rfl)]
                      rw [show hexVal? '0' = some 0 from rfl]
                      cases hexVal? a <;> cases hexVal? b <;> rfl
                    simp only [escChar, h1, h2, h3, h4, h5, h6, h7, if_false, if_pos h8,
                      List.cons_append, List.nil_append]
                    rw [step, hv1, hv2]
                    dsimp only
                    have hcode : ((0 * 16 + 0) * 16 + c.toNat / 16) * 16 + c.toNat % 16
                        = c.toNat := by omega
                    rw [hcode, if_pos hvalid, ih, Char.ofNat_toNat]
                    rfl
                  · simp only [escChar, h1, h2, h3, h4, h5, h6, h7, h8, if_false,
                      List.cons_append, List.nil_append]
                    rw [parseStringBody.eq_def]
                    dsimp only
                    rw [if_neg h1, if_neg h2, if_neg h8, ih]
                    rfl

theorem natDigitsAux_eq (fuel n : Nat) (h : n ≤ fuel) :
    natDigitsAux fuel n = (Nat.digits 10 n).reverse.map (fun d => Char.ofNat (48 + d)) := by
  induction fuel generalizing n with
  | zero =>
    have hn : n = 0 := by omega
    subst hn
    simp [natDigitsAux]
  | succ f ih =>
    by_cases hn : n = 0
    · subst hn; simp [natDigitsAux]
    · have hdiv : n / 10 < n := Nat.div_lt_self (Nat.pos_of_ne_zero hn) (by omega)
      rw [natDigitsAux, if_neg hn, ih (n / 10) (by omega),
        Nat.digits_def' (by omega : (1:Nat) < 10) (Nat.pos_of_ne_zero hn)]
      simp

theorem toNat_digit (d : Nat) (h : d < 10) : (Char.ofNat (48 + d)).toNat = 48 + d :=
  char_toNat_ofNat (Or.inl (by omega))

theorem isDigitCh_digit (d : Nat) (h : d < 10) : isDigitCh (Char.ofNat (48 + d)) = true := by
  simp only [isDigitCh, toNat_digit d h, decide_eq_true_eq]
  omega

theorem natToChars_all_digits (n : Nat) : ∀ c ∈ natToChars n, isDigitCh c = true := by
  unfold natToChars
  by_cases hn : n = 0
  · subst hn; intro c hc; simp at hc; subst hc; decide
  · rw [if_neg hn, natDigitsAux_eq (n + 1) n (by omega)]
    intro c hc
    simp only [List.mem_map, List.mem_reverse] at hc
    obtain ⟨d, hd, rfl⟩ := hc
    exact isDigitCh_digit d (Nat.digits_lt_base (by omega) hd)

theorem natToChars_ne_nil (n : Nat) : natToChars n ≠ [] := by
  unfold natToChars
  by_cases hn : n = 0
  · subst hn; simp
  · rw [if_neg hn, natDigitsAux_eq (n + 1) n (by omega)]
    simp [Nat.digits_ne_nil_iff_ne_zero, hn]

theorem natToChars_no_leading_zero (n : Nat) :
    ¬ ((natToChars n).headD '0' = '0' ∧ (natToChars n).length > 1) := by
  unfold natToChars
  by_cases hn : n = 0
  · subst hn; simp
  · rw [if_neg hn, natDigitsAux_eq (n + 1) n (by omega)]
    rintro ⟨hhead, -⟩
    have hne : Nat.digits 10 n ≠ [] := Nat.digits_ne_nil_iff_ne_zero.mpr hn
    have hlast := Nat.getLast_digit_ne_zero 10 hn
    have hrev : (Nat.digits 10 n).reverse.head? = some ((Nat.digits 10 n).getLast hne) := by
      rw [List.head?_reverse, List.getLast?_eq_getLast _ hne]
    set ds := Nat.digits 10 n with hds
    obtain ⟨x, t, hxt⟩ : ∃ x t, ds.reverse = x :: t := by
      cases hr : ds.reverse with
      | nil => exact absurd (by simpa using congrArg List.reverse hr) hne
      | cons x t => exact ⟨x, t, rfl⟩
    rw [hxt] at hrev
    simp only [List.head?_cons, Option.some.injEq] at hrev
    rw [hxt] at hhead
    simp only [List.map_cons, List.headD_cons] at hhead
    have hx10 : x < 10 := Nat.digits_lt_base (by omega) (by
      rw [← List.mem_reverse, hxt]; exact List.mem_cons_self x t)
    have := congrArg Char.toNat hhead
    rw [toNat_digit x hx10] at this
    have : x = 0 := by
      have h0 : ('0' : Char).toNat = 48 := by decide
      omega
    exact hlast (hrev ▸ this)

theorem foldl_digits_chars (l : List Nat) (a : Nat) (hl : ∀ d ∈ l, d < 10) :
    (l.reverse.map (fun d => Char.ofNat (48 + d))).foldl
        (fun acc c => acc * 10 + (c.toNat - 48)) a
      = a * 10 ^ l.length + Nat.ofDigits 10 l := by
  induction l generalizing a with
  | nil => simp
  | cons d t ih =>
    simp only [List.reverse_cons, List.map_append, List.foldl_append, List.map_cons,
      List.map_nil, List.foldl_cons, List.foldl_nil, List.length_cons]
    rw [ih a (fun x hx => hl x (List.mem_cons_of_mem d hx)),
      toNat_digit d (hl d (List.mem_cons_self d t)), Nat.ofDigits_cons]
    have h48 : 48 + d - 48 = d := by omega
    rw [h48]
    ring

theorem digitsToNat_natToChars (n : Nat) : digitsToNat (natToChars n) = n := by
  by_cases hn : n = 0
  · subst hn; decide
  · unfold natToChars digitsToNat
    rw [if_neg hn, natDigitsAux_eq (n + 1) n (by omega),
      foldl_digits_chars _ 0 (fun d hd => Nat.digits_lt_base (by omega) hd)]
    simp [Nat.ofDigits_digits]

theorem takeWhile_append_all {p : Char → Bool} {l1 : List Char} (l2 : List Char)
    (h : ∀ c ∈ l1, p c = true) :
    (l1 ++ l2).takeWhile p = l1 ++ l2.takeWhile p := by
  induction l1 with
  | nil => simp
  | cons c t ih =>
    simp only [List.cons_append, List.takeWhile_cons, h c (List.mem_cons_self c t), if_true]
    rw [ih (fun x hx => h x (List.mem_cons_of_mem c hx))]

theorem dropWhile_append_all {p : Char → Bool} {l1 : List Char} (l2 : List Char)
    (h : ∀ c ∈ l1, p c = true) :
    (l1 ++ l2).dropWhile p = l2.dropWhile p := by
  induction l1 with
  | nil => simp
  | cons c t ih =>
    simp only [List.cons_append, List.dropWhile_cons, h c (List.mem_cons_self c t), if_true]
    exact ih (fun x hx => h x (List.mem_cons_of_mem c hx))

theorem parseJsonNat_natToChars (n : Nat) (rest : List Char)
    (hrest : isDigitCh (rest.headD ' ') = false) :
    parseJsonNat (natToChars n ++ rest) = some (n, rest) := by
  have hall := natToChars_all_digits n
  have hrest_take : rest.takeWhile isDigitCh = [] := by
    cases rest with
    | nil => simp
    | cons c t =>
      simp only [List.headD_cons] at hrest
      simp [List.takeWhile_cons, hrest]
  have hrest_drop : rest.dropWhile isDigitCh = rest := by
    cases rest with
    | nil => simp
    | cons c t =>
      simp only [List.headD_cons] at hrest
      simp [List.dropWhile_cons, hrest]
  unfold parseJsonNat
  rw [takeWhile_append_all rest hall, dropWhile_append_all rest hall,
    hrest_take, hrest_drop, List.append_nil]
  rw [if_neg (natToChars_ne_nil n), if_neg (natToChars_no_leading_zero n),
    digitsToNat_natToChars]

theorem skipWs_cons_ws {c : Char} (l : List Char) (h : isJsonWs c = true) :
    skipWs (c :: l) = skipWs l := by
  simp [skipWs, h]

theorem not_ws_of_digit {c : Char} (h : isDigitCh c = true) : isJsonWs c = false := by
  by_contra hw
  simp only [Bool.not_eq_false] at hw
  simp only [isJsonWs, Bool.or_eq_true, beq_iff_eq] at hw
  rcases hw with (((rfl | rfl) | rfl) | rfl) <;> exact absurd h (by decide)

theorem digit_ne_quote {c : Char} (h : isDigitCh c = true) : ¬ c = '"' := by
  rintro rfl; exact absurd h (by decide)

theorem digit_ne_minus {c : Char} (h : isDigitCh c = true) : ¬ c = '-' := by
  rintro rfl; exact absurd h (by decide)

theorem natToChars_cons (n : Nat) :
    ∃ c t, natToChars n = c :: t ∧ isDigitCh c = true := by
  cases hh : natToChars n with
  | nil => exact absurd hh (natToChars_ne_nil n)
  | cons c t =>
    refine ⟨c, t, rfl, natToChars_all_digits n c ?_⟩
    rw [hh]; exact List.mem_cons_self c t

theorem skipWs_intToChars (n : Int) (l : List Char) :
    skipWs (intToChars n ++ l) = intToChars n ++ l := by
  unfold intToChars
  by_cases hn : n < 0
  · rw [if_pos hn]
    exact skipWs_not_ws _ (by decide)
  · rw [if_neg hn]
    obtain ⟨c, t, hct, hc⟩ := natToChars_cons n.toNat
    rw [hct, List.cons_append]
    exact skipWs_not_ws _ (not_ws_of_digit hc)

theorem parseJsonValue_int (n : Int) (rest : List Char)
    (hrest : isDigitCh (rest.headD ' ') = false) :
    parseJsonValue (intToChars n ++ rest) = some (JVal.jint n, rest) := by
  unfold intToChars
  by_cases hn : n < 0
  · rw [if_pos hn, List.cons_append, parseJsonValue.eq_def]
    dsimp only
    rw [if_neg (show ¬ (('-' : Char) = '"') by decide),
      if_pos (show ('-' : Char) = '-' from rfl),
      parseJsonNat_natToChars n.natAbs rest hrest]
    simp only [Option.map_some']
    have h2 : -((n.natAbs : Nat) : Int) = n := by omega
    rw [h2]
  · rw [if_neg hn]
    obtain ⟨c, t, hct, hc⟩ := natToChars_cons n.toNat
    rw [hct, List.cons_append, parseJsonValue.eq_def]
    dsimp only
    rw [if_neg (digit_ne_quote hc), if_neg (digit_ne_minus hc), if_pos hc,
      ← List.cons_append, ← hct, parseJsonNat_natToChars n.toNat rest hrest]
    simp only [Option.map_some']
    have h2 : ((n.toNat : Nat) : Int) = n := by omega
    rw [h2]

/-- The decoded member list of one cue object. -/
def cueMembers (c : Cue) : List (String × JVal) :=
  [("ts_ms", JVal.jint c.ts_ms), ("text", JVal.jstr c.text)]

theorem parseObj_encodeCue (c : Cue) (fuel : Nat) (rest : List Char) :
    parseObj (fuel + 2) (encodeCue c ++ rest) = some (cueMembers c, rest) := by
  have hts : ∀ tail, parseStringBody ('t' :: 's' :: '_' :: 'm' :: 's' :: '"' :: tail) =
      some ("ts_ms".data, tail) := fun tail => parseStringBody_escString "ts_ms".data tail
  have htext : ∀ tail, parseStringBody ('t' :: 'e' :: 'x' :: 't' :: '"' :: tail) =
      some ("text".data, tail) := fun tail => parseStringBody_escString "text".data tail
  simp only [encodeCue, List.cons_append, List.nil_append, List.append_assoc]
  rw [parseObj.eq_def]
  dsimp only
  rw [if_pos (show ('{' : Char) = '{' from rfl), skipWs_not_ws _ (by decide)]
  dsimp only
  rw [if_neg (show ¬ (('"' : Char) = '}') by decide), parseMembersLoop.eq_def]
  dsimp only
  rw [if_pos (show ('"' : Char) = '"' from rfl), hts]
  dsimp only
  rw [skipWs_not_ws _ (by decide)]
  dsimp only
  rw [if_pos (show (':' : Char) = ':' from rfl), skipWs_cons_ws _ (by decide),
    skipWs_intToChars, parseJsonValue_int c.ts_ms _ (by rw [List.headD_cons]; decide)]
  dsimp only
  rw [skipWs_not_ws _ (by decide)]
  dsimp only
  rw [if_pos (show (',' : Char) = ',' from rfl), skipWs_cons_ws _ (by decide),
    skipWs_not_ws _ (by decide), parseMembersLoop.eq_def]
  dsimp only
  rw [if_pos (show ('"' : Char) = '"' from rfl), htext]
  dsimp only
  rw [skipWs_not_ws _ (by decide)]
  dsimp only
  rw [if_pos (show (':' : Char) = ':' from rfl), skipWs_cons_ws _ (by decide),
    skipWs_not_ws _ (by decide), parseJsonValue.eq_def]
  dsimp only
  rw [if_pos (show ('"' : Char) = '"' from rfl), parseStringBody_escString]
  simp only [Option.map_some']
  rw [skipWs_not_ws _ (by decide)]
  dsimp only
  rw [if_neg (show ¬ (('}' : Char) = ',') by decide),
    if_pos (show ('}' : Char) = '}' from rfl)]
  rfl

theorem encodeCuesList_cons (c : Cue) (cs : List Cue) :
    ∃ t, encodeCuesList (c :: cs) = '{' :: t := by
  cases cs with
  | nil => exact ⟨_, rfl⟩
  | cons d ds => exact ⟨_, rfl⟩

theorem length_le_encodeCuesList (cs : List Cue) :
    cs.length ≤ (encodeCuesList cs).length := by
  induction cs with
  | nil => simp [encodeCuesList]
  | cons c cs ih =>
    cases cs with
    | nil =>
      show 1 ≤ (encodeCuesList [c]).length
      show 1 ≤ (encodeCue c).length
      simp [encodeCue]
    | cons d ds =>
      show (d :: ds).length + 1 ≤ (encodeCue c ++ [',', ' '] ++ encodeCuesList (d :: ds)).length
      have h := ih
      simp only [List.length_append, List.length_cons] at *
      omega

theorem parseItemsLoop_encodeCuesList (c : Cue) (cs : List Cue) :
    ∀ fuel, cs.length + 2 ≤ fuel → ∀ rest,
    parseItemsLoop fuel (encodeCuesList (c :: cs) ++ ']' :: rest)
      = some ((c :: cs).map cueMembers, rest) := by
  induction cs generalizing c with
  | nil =>
    intro fuel hf rest
    obtain ⟨g, rfl⟩ : ∃ g, fuel = g + 2 := ⟨fuel - 2, by omega⟩
    show parseItemsLoop (g + 2) (encodeCue c ++ ']' :: rest) = some ([cueMembers c], rest)
    rw [parseItemsLoop.eq_def]
    dsimp only
    rw [show (g : Nat) + 1 + 1 = g + 2 from rfl, parseObj_encodeCue c g (']' :: rest)]
    dsimp only
    rw [skipWs_not_ws _ (by decide)]
    dsimp only
    rw [if_neg (show ¬ ((']' : Char) = ',') by decide),
      if_pos (show (']' : Char) = ']' from rfl)]
  | cons d ds ih =>
    intro fuel hf rest
    obtain ⟨g, rfl⟩ : ∃ g, fuel = g + 2 := ⟨fuel - 2, by omega⟩
    simp only [encodeCuesList, List.cons_append, List.nil_append, List.append_assoc,
      List.map_cons]
    rw [parseItemsLoop.eq_def]
    dsimp only
    rw [show (g : Nat) + 1 + 1 = g + 2 from rfl, parseObj_encodeCue c g _]
    dsimp only
    rw [skipWs_not_ws _ (by decide)]
    dsimp only
    rw [if_pos (show (',' : Char) = ',' from rfl), skipWs_cons_ws _ (by decide)]
    obtain ⟨t, ht⟩ := encodeCuesList_cons d ds
    rw [ht, List.cons_append, skipWs_not_ws _ (by decide), ← List.cons_append, ← ht,
      ih d (g + 1) (by simp only [List.length_cons] at hf ⊢; omega) rest]
    simp only [Option.map_some']
    rfl

theorem objToCue_cueMembers (c : Cue) : objToCue (cueMembers c) = some c := rfl

theorem mapM_objToCue (l : List Cue) : (l.map cueMembers).mapM objToCue = some l := by
  induction l with
  | nil => rfl
  | cons c cs ih =>
    rw [List.map_cons, List.mapM_cons, objToCue_cueMembers, ih]
    rfl

/-- C1 (confirmed): decoding the string produced by cue encoding yields
exactly the original cue sequence, in order, for every sequence —
including the empty one, sequences with duplicate offsets, and Unicode
text (the statement quantifies over all `List Cue`); and the empty
sequence encodes to the explicit empty-array marker `"[]"`, not an absent
value. -/
theorem c1_cue_round_trip :
    (∀ l : List Cue, decodeCues (encodeCues l) = some l) ∧ encodeCues [] = "[]" := by
  refine ⟨fun l => ?_, by decide⟩
  cases l with
  | nil => decide
  | cons c cs =>
    have hdata : (encodeCues (c :: cs)).data
        = '[' :: (encodeCuesList (c :: cs) ++ [']']) := rfl
    obtain ⟨t, ht⟩ := encodeCuesList_cons c cs
    rw [decodeCues.eq_def, hdata, skipWs_not_ws _ (by decide)]
    dsimp only
    rw [if_pos (show ('[' : Char) = '[' from rfl)]
    rw [ht, List.cons_append, skipWs_not_ws _ (by decide), ← List.cons_append, ← ht,
      parseItems.eq_def, ht, List.cons_append]
    dsimp only
    rw [if_neg (show ¬ (('{' : Char) = ']') by decide), ← List.cons_append, ← ht,
      parseItemsLoop_encodeCuesList c cs _ (by
        have h := length_le_encodeCuesList (c :: cs)
        simp only [List.length_cons, List.length_append] at h ⊢
        omega) []]
    dsimp only
    rw [if_pos (show skipWs [] = ([] : List Char) from rfl), mapM_objToCue]

/-! ## ID3 container model

A tag container is a list of frames.  `delall` and `add` mirror mutagen's
`ID3.delall`/`ID3.add` at the granularity the scripts use them (presence
and payload of frames per 4-character identifier; the binary layout is
the tag library's concern). -/

/-- Frame identifiers: the twelve the scripts manage, plus arbitrary
others (e.g. `APIC`) that an existing file may carry. -/
inductive FrameId where
  | TIT2 | TPE1 | TALB | TRCK | TPOS | TCON | TDRC | TCOM | COMM | USLT | SYLT | TXXX
  | other (name : String)
deriving DecidableEq, Repr

/-- Frame payloads as the import loop constructs them (`raw` stands for
any pre-existing frame content). -/
inductive FramePayload where
  | text (ts : List String)
  | comm (desc lang : String) (ts : List String)
  | uslt (desc lang : String) (t : String)
  | sylt (desc lang : String) (ty : Nat) (texts : List String) (times : List Int)
  | raw (b : String)
deriving DecidableEq, Repr

/-- One ID3 frame. -/
structure Frame where
  id : FrameId
  payload : FramePayload
deriving DecidableEq, Repr

/-- `tags.delall(frame)`: remove every frame of the given identifier. -/
def delall (k : FrameId) (tags : List Frame) : List Frame :=
  tags.filter (fun f => f.id != k)

/-- `tags.add(frame)`. -/
def addFrame (tags : List Frame) (f : Frame) : List Frame := tags ++ [f]

/-- The deletion list of the extended import loop:
`("TIT2","TPE1","TALB","TRCK","TPOS","TCON","TDRC","TCOM","COMM","USLT","SYLT","TXXX")`. -/
def managedFrames : List FrameId :=
  [.TIT2, .TPE1, .TALB, .TRCK, .TPOS, .TCON, .TDRC, .TCOM, .COMM, .USLT, .SYLT, .TXXX]

/-- One row of the extended CSV as the import loop reads it: all cells
strings (`keep_default_na=False` plus `fillna("")`); a missing optional
column reads as `""`, which the truthiness tests treat exactly like an
empty cell. -/
structure MdRow where
  filename : String := ""
  title : String := ""
  artist : String := ""
  album : String := ""
  tracknumber : String := ""
  disc : String := ""
  genre : String := ""
  date : String := ""
  composer : String := ""
  comments : String := ""
  lyrics : String := ""
  synced_lyrics : String := ""
deriving DecidableEq, Repr

/-- Body of the extended import loop for one row (transfer-mp3md.py,
`mp3metadata` variant, lines 184-216): delete all twelve managed frame
types, then add a frame per truthy (non-empty) cell, in source order;
`json.loads` on a malformed `synced_lyrics` cell raises (`none`), in
which case `tags.save` is never reached. -/
def processTags (row : MdRow) (tags : List Frame) : Option (List Frame) :=
  let tags := managedFrames.foldl (fun t k => delall k t) tags
  let tags := if row.title ≠ "" then addFrame tags ⟨.TIT2, .text [row.title]⟩ else tags
  let tags := if row.artist ≠ "" then addFrame tags ⟨.TPE1, .text [row.artist]⟩ else tags
  let tags := if row.album ≠ "" then addFrame tags ⟨.TALB, .text [row.album]⟩ else tags
  let tags := if row.tracknumber ≠ "" then
    addFrame tags ⟨.TRCK, .text [row.tracknumber]⟩ else tags
  let tags := if row.disc ≠ "" then addFrame tags ⟨.TPOS, .text [row.disc]⟩ else tags
  let tags := if row.genre ≠ "" then addFrame tags ⟨.TCON, .text [row.genre]⟩ else tags
  let tags := if row.date ≠ "" then addFrame tags ⟨.TDRC, .text [row.date]⟩ else tags
  let tags := if row.composer ≠ "" then addFrame tags ⟨.TCOM, .text [row.composer]⟩ else tags
  let tags := if row.comments ≠ "" then
    addFrame tags ⟨.COMM, .comm "" "eng" [row.comments]⟩ else tags
  let tags := if row.lyrics ≠ "" then addFrame tags ⟨.USLT, .uslt "" "eng" row.lyrics⟩ else tags
  if row.synced_lyrics = "" then some tags
  else
    match decodeCues row.synced_lyrics with
    | some entries =>
      some (addFrame tags
        ⟨.SYLT, .sylt "" "eng" 1 (entries.map (·.text)) (entries.map (·.ts_ms))⟩)
    | Option.none => Option.none

/-- Does the container hold a frame of this identifier? -/
def hasFrame (k : FrameId) (tags : List Frame) : Bool :=
  tags.any (fun f => f.id == k)

/-- The extended import loop over all rows (lines 170-217): a row whose
resolved path is not a file is skipped silently (plain `continue`, no
stderr message); otherwise the row's frames are written and the file
counts as updated.  The result is `(updated filenames, stderr warnings
emitted inside the loop)` — the loop prints only the progress counter to
stdout, so the warning list never grows — and `none` models the uncaught
`json.loads` exception aborting the whole run.  `isFile fn` stands for
`os.path.isfile(os.path.join(mp3_dir, fn))`. -/
def import_metadata_rows (isFile : String → Bool) (tagOf : String → List Frame) :
    List MdRow → Option (List String × List String)
  | [] => some ([], [])
  | r :: rs =>
    if isFile r.filename then
      match processTags r (tagOf r.filename) with
      | some _ =>
        (import_metadata_rows isFile tagOf rs).map (fun p => (r.filename :: p.1, p.2))
      | Option.none => Option.none
    else import_metadata_rows isFile tagOf rs

/-- A warning the basic import loop prints to stderr. -/
inductive TmWarning where
  | missingFilename (idx : Nat)
  | fileNotFound (filename : String)
deriving DecidableEq, Repr

/-- Is this the empty-filename warning? -/
def TmWarning.isMissing : TmWarning → Bool
  | .missingFilename _ => true
  | _ => false

/-- The basic import loop (src/transfer-mp3md, lines 139-147), reduced to
the cells its skip logic reads: an empty filename is skipped with a
stderr warning naming the row index, a missing file is skipped with a
warning, and any other row is processed; the run always continues. -/
def tm_import_rows (isFile : String → Bool) : Nat → List String → List String × List TmWarning
  | _, [] => ([], [])
  | idx, fn :: rest =>
    if fn = "" then
      let p := tm_import_rows isFile (idx + 1) rest
      (p.1, .missingFilename idx :: p.2)
    else if isFile fn then
      let p := tm_import_rows isFile (idx + 1) rest
      (fn :: p.1, p.2)
    else
      let p := tm_import_rows isFile (idx + 1) rest
      (p.1, .fileNotFound fn :: p.2)

/-! ## Export-side disc reading (C3) -/

/-- ASCII lower-casing of one character (`str.lower` restricted to ASCII;
the fallback descriptions compared against are the ASCII words
`"disc"`/`"disk"`). -/
def lowerChar (c : Char) : Char :=
  if 'A' ≤ c ∧ c ≤ 'Z' then Char.ofNat (c.toNat + 32) else c

/-- `s.lower()` on ASCII letters. -/
def asciiLower (s : String) : String := ⟨s.data.map lowerChar⟩

/-- One `TXXX` frame as the disc fallback reads it: its description and
first text value. -/
structure TxFrame where
  desc : String
  text : String
deriving DecidableEq, Repr

/-- The slice of a decoded container the disc logic of `export_metadata`
reads: the first `TPOS` frame's first text (if the frame exists) and all
`TXXX` frames in storage order. -/
structure Id3Export where
  tpos : Option String
  txxx : List TxFrame
deriving DecidableEq, Repr

/-- `id3.get(frame).text[0] if id3.get(frame) else ""`. -/
def get_txt (o : Option String) : String := o.getD ""

/-- `txxx.desc.strip().lower() in ("disc", "disk")`. -/
def isDiscDesc (t : TxFrame) : Bool :=
  asciiLower (pyStrip t.desc) == "disc" || asciiLower (pyStrip t.desc) == "disk"

/-- Disc extraction of `export_metadata` (lines 74-80): take the `TPOS`
text; if falsy, scan the `TXXX` frames in storage order and take the
first whose description matches, breaking there; otherwise `""`. -/
def exportDisc (id3 : Id3Export) : String :=
  let disc := get_txt id3.tpos
  if disc = "" then
    match id3.txxx.find? isDiscDesc with
    | some t => t.text
    | Option.none => ""
  else disc

/-! ## C3: disc precedence on decode -/

theorem find?_first {α : Type} (p : α → Bool) (pre post : List α) (x : α)
    (hx : p x = true) (hpre : ∀ y ∈ pre, p y = false) :
    (pre ++ x :: post).find? p = some x := by
  induction pre with
  | nil => simp [List.find?_cons, hx]
  | cons a t ih =>
    have ha : p a = false := hpre a (List.mem_cons_self a t)
    simp only [List.cons_append, List.find?_cons, ha]
    exact ih (fun y hy => hpre y (List.mem_cons_of_mem a hy))

/-- C3 (confirmed): the decoded disc field equals the dedicated `TPOS`
frame's text whenever that frame is present and non-empty — even when a
fallback frame holds a different value; otherwise it equals the text of
the first `TXXX` frame, in storage order, whose trimmed lower-cased
description is `"disc"` or `"disk"`; and when neither exists it is
empty. -/
theorem c3_disc_precedence (id3 : Id3Export) :
    (∀ t, id3.tpos = some t → t ≠ "" → exportDisc id3 = t)
    ∧ (get_txt id3.tpos = "" →
        (∀ pre fr post, id3.txxx = pre ++ fr :: post → isDiscDesc fr = true →
          (∀ fr2 ∈ pre, isDiscDesc fr2 = false) → exportDisc id3 = fr.text)
        ∧ ((∀ fr ∈ id3.txxx, isDiscDesc fr = false) → exportDisc id3 = "")) := by
  refine ⟨fun t ht hne => ?_, fun h0 => ⟨fun pre fr post hsplit hfr hpre => ?_, fun hall => ?_⟩⟩
  · simp [exportDisc, get_txt, ht, hne]
  · have hfind : id3.txxx.find? isDiscDesc = some fr := by
      rw [hsplit]; exact find?_first _ pre post fr hfr hpre
    simp [exportDisc, h0, hfind]
  · have hfind : id3.txxx.find? isDiscDesc = Option.none :=
      List.find?_eq_none.mpr (fun x hx => by simp [hall x hx])
    simp [exportDisc, h0, hfind]

/-- C3 (witness): the theorem applied to a container carrying both a
dedicated disc frame `"2"` and a conflicting fallback frame (the
dedicated one wins), and to a container with an empty `TPOS` where the
`" Disc "` fallback is used. -/
theorem c3_witness :
    exportDisc { tpos := some "2", txxx := [{ desc := "disk", text := "9" }] } = "2"
    ∧ exportDisc { tpos := some "", txxx := [{ desc := " Disc ", text := "7" }] } = "7" :=
  ⟨(c3_disc_precedence _).1 "2" rfl (by decide),
   ((c3_disc_precedence { tpos := some "", txxx := [{ desc := " Disc ", text := "7" }] }).2
      (by decide)).1 [] { desc := " Disc ", text := "7" } [] rfl (by decide)
      (fun fr2 h => absurd h (List.not_mem_nil fr2))⟩

/-! ## C2: import deletes all managed frames, then writes iff non-empty -/

theorem hasFrame_delall_self (k : FrameId) (t : List Frame) :
    hasFrame k (delall k t) = false := by
  induction t with
  | nil => rfl
  | cons f t ih =>
    simp only [delall, hasFrame, List.filter_cons] at ih ⊢
    by_cases hf : f.id = k
    · simp only [bne, hf, beq_self_eq_true, Bool.not_true, Bool.false_eq_true, if_false]
      exact ih
    · have h1 : (f.id != k) = true := by simp [hf]
      have h2 : (f.id == k) = false := beq_eq_false_iff_ne.mpr hf
      simp only [h1, if_true, List.any_cons, h2, Bool.false_or]
      exact ih

theorem hasFrame_delall_ne (k k' : FrameId) (t : List Frame) (h : k ≠ k') :
    hasFrame k (delall k' t) = hasFrame k t := by
  induction t with
  | nil => rfl
  | cons f t ih =>
    simp only [delall, hasFrame, List.filter_cons, List.any_cons] at ih ⊢
    by_cases hf : f.id = k'
    · have h1 : (f.id != k') = false := by simp [hf]
      have h2 : (f.id == k) = false :=
        beq_eq_false_iff_ne.mpr (by rw [hf]; exact fun e => h e.symm)
      simp only [h1, Bool.false_eq_true, if_false, h2, Bool.false_or]
      exact ih
    · have h1 : (f.id != k') = true := by simp [hf]
      simp only [h1, if_true, List.any_cons]
      rw [ih]

theorem hasFrame_foldl_delall (l : List FrameId) (t : List Frame) (k : FrameId) :
    hasFrame k (l.foldl (fun t2 k2 => delall k2 t2) t)
      = if k ∈ l then false else hasFrame k t := by
  induction l generalizing t with
  | nil => simp
  | cons a l2 ih =>
    simp only [List.foldl_cons]
    rw [ih]
    by_cases hk : k ∈ l2
    · simp [hk, List.mem_cons]
    · by_cases ha : k = a
      · subst ha
        simp [hk, hasFrame_delall_self, List.mem_cons]
      · simp [hk, ha, hasFrame_delall_ne k a t ha, List.mem_cons]

theorem hasFrame_addFrame (k : FrameId) (t : List Frame) (f : Frame) :
    hasFrame k (addFrame t f) = (hasFrame k t || (f.id == k)) := by
  simp [hasFrame, addFrame]

theorem hasFrame_condAdd (k : FrameId) (c : Prop) [Decidable c] (t : List Frame) (f : Frame) :
    hasFrame k (if c then addFrame t f else t)
      = (hasFrame k t || (decide c && (f.id == k))) := by
  by_cases h : c <;> simp [h, hasFrame_addFrame]

/-- C2 (confirmed): for every row the import writes, the operation first
deletes every managed frame type (title, artist, album, track, disc,
genre, date, composer, comment, lyrics, timed-lyrics, generic
extended-text) and then a frame of each type is present in the saved
container precisely when the corresponding cell is non-empty; an empty
cell yields no frame of that type (never an empty frame), and no `TXXX`
frame is ever written, regardless of what the container held before. -/
theorem c2_import_frames (row : MdRow) (tags out : List Frame)
    (h : processTags row tags = some out) :
    (hasFrame .TIT2 out = true ↔ row.title ≠ "")
    ∧ (hasFrame .TPE1 out = true ↔ row.artist ≠ "")
    ∧ (hasFrame .TALB out = true ↔ row.album ≠ "")
    ∧ (hasFrame .TRCK out = true ↔ row.tracknumber ≠ "")
    ∧ (hasFrame .TPOS out = true ↔ row.disc ≠ "")
    ∧ (hasFrame .TCON out = true ↔ row.genre ≠ "")
    ∧ (hasFrame .TDRC out = true ↔ row.date ≠ "")
    ∧ (hasFrame .TCOM out = true ↔ row.composer ≠ "")
    ∧ (hasFrame .COMM out = true ↔ row.comments ≠ "")
    ∧ (hasFrame .USLT out = true ↔ row.lyrics ≠ "")
    ∧ (hasFrame .SYLT out = true ↔ row.synced_lyrics ≠ "")
    ∧ hasFrame .TXXX out = false := by
  simp only [processTags] at h
  by_cases hs : row.synced_lyrics = ""
  · rw [if_pos hs] at h
    injection h with h
    subst h
    refine ⟨?_, ?_, ?_, ?_, ?_, ?_, ?_, ?_, ?_, ?_, ?_, ?_⟩ <;>
      simp only [hasFrame_condAdd, hasFrame_addFrame, hasFrame_foldl_delall] <;>
      simp [managedFrames, hs]
  · rw [if_neg hs] at h
    cases hd : decodeCues row.synced_lyrics with
    | none => rw [hd] at h; exact absurd h (by simp)
    | some entries =>
      rw [hd] at h
      injection h with h
      subst h
      refine ⟨?_, ?_, ?_, ?_, ?_, ?_, ?_, ?_, ?_, ?_, ?_, ?_⟩ <;>
        simp only [hasFrame_condAdd, hasFrame_addFrame, hasFrame_foldl_delall] <;>
        simp [managedFrames, hs]

/-- A concrete import row: non-empty title and disc, everything else
empty. -/
def c2row : MdRow := { title := "T", disc := "1" }

/-- The container the import writes for `c2row` over an initially empty
container. -/
def c2out : List Frame :=
  [⟨.TIT2, .text ["T"]⟩, ⟨.TPOS, .text ["1"]⟩]

/-- C2 (witness): the theorem applied to `c2row`: the saved container
holds exactly a title and a disc frame, and none of the ten other managed
types. -/
theorem c2_witness :
    (hasFrame .TIT2 c2out = true ↔ c2row.title ≠ "")
    ∧ (hasFrame .TPE1 c2out = true ↔ c2row.artist ≠ "")
    ∧ (hasFrame .TALB c2out = true ↔ c2row.album ≠ "")
    ∧ (hasFrame .TRCK c2out = true ↔ c2row.tracknumber ≠ "")
    ∧ (hasFrame .TPOS c2out = true ↔ c2row.disc ≠ "")
    ∧ (hasFrame .TCON c2out = true ↔ c2row.genre ≠ "")
    ∧ (hasFrame .TDRC c2out = true ↔ c2row.date ≠ "")
    ∧ (hasFrame .TCOM c2out = true ↔ c2row.composer ≠ "")
    ∧ (hasFrame .COMM c2out = true ↔ c2row.comments ≠ "")
    ∧ (hasFrame .USLT c2out = true ↔ c2row.lyrics ≠ "")
    ∧ (hasFrame .SYLT c2out = true ↔ c2row.synced_lyrics ≠ "")
    ∧ hasFrame .TXXX c2out = false :=
  c2_import_frames c2row [] c2out (by decide)

/-! ## C5: a malformed cue cell aborts the whole import -/

theorem import_metadata_rows_append (isFile : String → Bool) (tagOf : String → List Frame)
    (l1 l2 : List MdRow) :
    import_metadata_rows isFile tagOf (l1 ++ l2)
      = match import_metadata_rows isFile tagOf l1 with
        | some p =>
          (import_metadata_rows isFile tagOf l2).map (fun q => (p.1 ++ q.1, p.2 ++ q.2))
        | Option.none => Option.none := by
  induction l1 with
  | nil =>
    simp only [List.nil_append, import_metadata_rows]
    cases import_metadata_rows isFile tagOf l2 with
    | none => rfl
    | some q => rfl
  | cons r rs ih =>
    simp only [List.cons_append, import_metadata_rows, List.append_eq]
    by_cases hf : isFile r.filename
    · rw [if_pos hf, if_pos hf]
      cases processTags r (tagOf r.filename) with
      | none => rfl
      | some o =>
        rw [ih]
        cases import_metadata_rows isFile tagOf rs with
        | none => rfl
        | some p =>
          cases import_metadata_rows isFile tagOf l2 with
          | none => rfl
          | some q => simp
    · rw [if_neg hf, if_neg hf, ih]

/-- A row whose cue cell is not valid cue syntax. -/
def c5bad : MdRow := { filename := "x.mp3", synced_lyrics := "not json" }

/-- A well-formed row after it. -/
def c5good : MdRow := { filename := "y.mp3", title := "B" }

/-- C5 (counterexample): with both files present, a malformed cue cell in
the first of two rows makes the whole import abort (`none`) — the second
row is never processed — refuting "skips only that row and continues". -/
theorem c5_counterexample :
    import_metadata_rows (fun _ => true) (fun _ => []) [c5bad, c5good] = Option.none := by
  decide

/-- C5 (amended): in the extended variant a `synced_lyrics` cell that is
present, non-empty and not valid cue syntax raises an uncaught exception
that is fatal to the whole import batch: however many rows were already
processed, once such a row (whose file exists) is reached the run aborts,
no later row is processed, and the malformed row's own file is not
updated (its `tags.save` is never reached). -/
theorem c5_amended (isFile : String → Bool) (tagOf : String → List Frame)
    (pre post : List MdRow) (r : MdRow) (p : List String × List String)
    (hpre : import_metadata_rows isFile tagOf pre = some p)
    (hfile : isFile r.filename = true) (hne : r.synced_lyrics ≠ "")
    (hbad : decodeCues r.synced_lyrics = Option.none) :
    import_metadata_rows isFile tagOf (pre ++ r :: post) = Option.none := by
  have hproc : processTags r (tagOf r.filename) = Option.none := by
    simp only [processTags]
    rw [if_neg hne, hbad]
  rw [import_metadata_rows_append, hpre]
  simp only [import_metadata_rows, hfile, if_true, hproc]
  rfl

/-- C5 (witness): the amended theorem applied after one successfully
processed row: the malformed second row kills the whole run. -/
theorem c5_witness :
    import_metadata_rows (fun _ => true) (fun _ => []) ([c5good] ++ c5bad :: [])
      = Option.none :=
  c5_amended (fun _ => true) (fun _ => []) [c5good] [] c5bad (["y.mp3"], [])
    (by decide) rfl (by decide) (by decide)

/-! ## C7: empty-filename rows -/

/-- C7 (counterexample): in the extended variant, a 5-row table with one
empty filename yields exactly 4 updated files but an *empty* warning
list — the empty-filename row is skipped silently (its joined path fails
the file test), refuting "skipped ... with a warning". -/
theorem c7_counterexample :
    import_metadata_rows
        (fun fn => ["a.mp3", "b.mp3", "d.mp3", "e.mp3"].contains fn) (fun _ => [])
        [{ filename := "a.mp3" }, { filename := "b.mp3" }, { filename := "" },
         { filename := "d.mp3" }, { filename := "e.mp3" }]
      = some (["a.mp3", "b.mp3", "d.mp3", "e.mp3"], []) := by
  decide

/-- C7 (amended): rows with an empty filename are skipped individually
and the run continues with the remaining rows in both variants, and
importing 5 rows of which 1 lacks a filename processes exactly the other
4; but only the basic variant records a warning for the skipped row — the
extended variant's loop emits no warning at all (the row merely fails the
file-existence test).  Precisely: (1) in the extended variant a row whose
path is not a file changes nothing; (2) any completed extended run has an
empty warning list; (3) in the basic variant the processed files are
exactly the rows with a non-empty filename that exists, and the number of
missing-filename warnings equals the number of empty-filename rows. -/
theorem c7_amended :
    (∀ (isFile : String → Bool) (tagOf : String → List Frame) (r : MdRow) (rs : List MdRow),
        isFile r.filename = false →
        import_metadata_rows isFile tagOf (r :: rs) = import_metadata_rows isFile tagOf rs)
    ∧ (∀ (isFile : String → Bool) (tagOf : String → List Frame)
          (rows : List MdRow) (p : List String × List String),
        import_metadata_rows isFile tagOf rows = some p → p.2 = [])
    ∧ (∀ (isFile : String → Bool) (idx : Nat) (fns : List String),
        (tm_import_rows isFile idx fns).1
            = fns.filter (fun fn => decide (fn ≠ "") && isFile fn)
        ∧ (tm_import_rows isFile idx fns).2.countP TmWarning.isMissing
            = fns.countP (fun fn => fn == "")) := by
  refine ⟨fun isFile tagOf r rs h => ?_, fun isFile tagOf rows => ?_, fun isFile idx fns => ?_⟩
  · simp [import_metadata_rows, h]
  · induction rows with
    | nil =>
      intro p h
      simp only [import_metadata_rows, Option.some.injEq] at h
      rw [← h]
    | cons r rs ih =>
      intro p h
      simp only [import_metadata_rows] at h
      by_cases hf : isFile r.filename
      · rw [if_pos hf] at h
        cases hp : processTags r (tagOf r.filename) with
        | none => rw [hp] at h; exact absurd h (by simp)
        | some o =>
          rw [hp] at h
          obtain ⟨q, hq, rfl⟩ := Option.map_eq_some'.mp h
          exact ih q hq
      · rw [if_neg hf] at h
        exact ih p h
  · induction fns generalizing idx with
    | nil => exact ⟨rfl, rfl⟩
    | cons fn t ih =>
      by_cases h1 : fn = ""
      · subst h1
        simp only [tm_import_rows, if_pos rfl, List.filter_cons, List.countP_cons]
        refine ⟨?_, ?_⟩
        · simp [(ih (idx + 1)).1]
        · simp [TmWarning.isMissing, List.countP_cons, (ih (idx + 1)).2]
      · by_cases h2 : isFile fn
        · simp only [tm_import_rows, if_neg h1, if_pos h2, List.filter_cons,
            List.countP_cons]
          refine ⟨?_, ?_⟩
          · simp [h1, h2, (ih (idx + 1)).1]
          · simp [h1, (ih (idx + 1)).2]
        · simp only [tm_import_rows, if_neg h1, if_neg h2, List.filter_cons,
            List.countP_cons]
          refine ⟨?_, ?_⟩
          · simp [h1, h2, (ih (idx + 1)).1]
          · simp [TmWarning.isMissing, h1, (ih (idx + 1)).2]

/-- C7 (witness): the amended theorem at the spec's 5-row scenario in the
basic variant — 4 records processed, exactly 1 missing-filename warning —
together with the extended variant's silent-skip behavior on a concrete
row. -/
theorem c7_witness :
    (tm_import_rows (fun _ => true) 0 ["a.mp3", "b.mp3", "", "d.mp3", "e.mp3"]).1
        = ["a.mp3", "b.mp3", "d.mp3", "e.mp3"]
    ∧ (tm_import_rows (fun _ => true) 0
        ["a.mp3", "b.mp3", "", "d.mp3", "e.mp3"]).2.countP TmWarning.isMissing = 1
    ∧ import_metadata_rows (fun _ => false) (fun _ => [])
        [({ filename := "" } : MdRow)] = import_metadata_rows (fun _ => false) (fun _ => []) [] := by
  refine ⟨?_, ?_, c7_amended.1 (fun _ => false) (fun _ => []) { filename := "" } [] rfl⟩
  · rw [(c7_amended.2.2 (fun _ => true) 0 ["a.mp3", "b.mp3", "", "d.mp3", "e.mp3"]).1]
    decide
  · rw [(c7_amended.2.2 (fun _ => true) 0 ["a.mp3", "b.mp3", "", "d.mp3", "e.mp3"]).2]
    decide

/-! ## C6: export column order

`export_metadata` builds each record dict with keys `filename, title,
artist, album, tracknumber, disc, genre, date, composer, comments,
length, bitrate` (lines 83-96), and only then conditionally inserts
`lyrics` (line 101) and `synced_lyrics` (line 109).
`pandas.DataFrame(records)` takes its columns in first-appearance order
of the dict keys across the rows, which is what a new CSV's header is
written from. -/

/-- The twelve keys every record dict starts with, in insertion order. -/
def EXPORT_BASE_COLS : List String :=
  ["filename", "title", "artist", "album", "tracknumber", "disc", "genre",
   "date", "composer", "comments", "length", "bitrate"]

/-- The key list of one record dict, given whether the file had
unsynchronized (`USLT`) and synchronized (`SYLT`) lyrics. -/
def recKeys (hasLyrics hasSynced : Bool) : List String :=
  EXPORT_BASE_COLS ++ (if hasLyrics then ["lyrics"] else [])
    ++ (if hasSynced then ["synced_lyrics"] else [])

/-- First-appearance accumulation of keys, as `pandas.DataFrame` collects
columns from a list of dicts. -/
def addNewCols (acc ks : List String) : List String :=
  acc ++ ks.filter (fun c => !acc.contains c)

/-- The header of the table `export_metadata` writes for a fresh CSV:
columns in first-appearance order over the records (each record given by
its two optional-key flags). -/
def exportColumns (recs : List (Bool × Bool)) : List String :=
  recs.foldl (fun acc r => addNewCols acc (recKeys r.1 r.2)) []

/-- C6 (counterexample): one record with both lyrics kinds present: the
header contains `lyrics`, but `length` comes *before* it — refuting "when
lyrics or synced-lyrics columns are present they precede the length and
bitrate columns". -/
theorem c6_counterexample :
    "lyrics" ∈ exportColumns [(true, true)]
    ∧ (exportColumns [(true, true)]).indexOf "length"
        < (exportColumns [(true, true)]).indexOf "lyrics" := by
  decide

theorem exportColumns_aux (recs : List (Bool × Bool)) (ex : List String)
    (hex : ∀ c ∈ ex, c = "lyrics" ∨ c = "synced_lyrics") :
    ∃ ex2, recs.foldl (fun acc r => addNewCols acc (recKeys r.1 r.2)) (EXPORT_BASE_COLS ++ ex)
        = EXPORT_BASE_COLS ++ ex2
      ∧ (∀ c ∈ ex2, c = "lyrics" ∨ c = "synced_lyrics")
      ∧ ("lyrics" ∈ ex2 ↔ "lyrics" ∈ ex ∨ ∃ r ∈ recs, r.1 = true)
      ∧ ("synced_lyrics" ∈ ex2 ↔ "synced_lyrics" ∈ ex ∨ ∃ r ∈ recs, r.2 = true) := by
  induction recs generalizing ex with
  | nil => exact ⟨ex, rfl, hex, by simp, by simp⟩
  | cons r rs ih =>
    simp only [List.foldl_cons]
    have hstep : addNewCols (EXPORT_BASE_COLS ++ ex) (recKeys r.1 r.2)
        = EXPORT_BASE_COLS
          ++ (ex ++ (recKeys r.1 r.2).filter
                (fun c => !(EXPORT_BASE_COLS ++ ex).contains c)) := by
      simp [addNewCols, List.append_assoc]
    set flt := (recKeys r.1 r.2).filter (fun c => !(EXPORT_BASE_COLS ++ ex).contains c)
      with hflt
    have hfltmem : ∀ c ∈ flt, (c ∈ recKeys r.1 r.2 ∧ c ∉ EXPORT_BASE_COLS ++ ex) := by
      intro c hc
      rw [hflt, List.mem_filter] at hc
      refine ⟨hc.1, ?_⟩
      have h2 := hc.2
      simp only [Bool.not_eq_true'] at h2
      intro hmem
      have : c ∈ EXPORT_BASE_COLS ++ ex → False := by simpa using h2
      exact this hmem
    have hfltopt : ∀ c ∈ flt, c = "lyrics" ∨ c = "synced_lyrics" := by
      intro c hc
      obtain ⟨h1, h2⟩ := hfltmem c hc
      simp only [recKeys, List.append_assoc, List.mem_append] at h1
      rcases h1 with h1 | h1 | h1
      · exact absurd (List.mem_append_left ex h1) h2
      · left; cases hr : r.1 <;> rw [hr] at h1 <;> simpa using h1
      · right; cases hr : r.2 <;> rw [hr] at h1 <;> simpa using h1
    have hexnew : ∀ c ∈ ex ++ flt, c = "lyrics" ∨ c = "synced_lyrics" := by
      intro c hc
      rcases List.mem_append.mp hc with h | h
      · exact hex c h
      · exact hfltopt c h
    obtain ⟨ex2, heq, hex2, hl2, hs2⟩ := ih (ex ++ flt) hexnew
    refine ⟨ex2, by rw [hstep]; exact heq, hex2, ?_, ?_⟩
    · rw [hl2]
      constructor
      · rintro (h | h)
        · rcases List.mem_append.mp h with h | h
          · exact Or.inl h
          · obtain ⟨h1, -⟩ := hfltmem _ h
            simp only [recKeys, List.append_assoc, List.mem_append] at h1
            rcases h1 with h1 | h1 | h1
            · exact absurd h1 (by decide)
            · refine Or.inr ⟨r, List.mem_cons_self r rs, ?_⟩
              cases hr : r.1
              · rw [hr] at h1; simp at h1
              · rfl
            · exfalso; cases hr : r.2 <;> rw [hr] at h1 <;> simp at h1
        · obtain ⟨q, hq, hq1⟩ := h
          exact Or.inr ⟨q, List.mem_cons_of_mem r hq, hq1⟩
      · rintro (h | ⟨q, hq, hq1⟩)
        · exact Or.inl (List.mem_append_left flt h)
        · rcases List.mem_cons.mp hq with rfl | hq
          · by_cases hin : "lyrics" ∈ ex
            · exact Or.inl (List.mem_append_left flt hin)
            · refine Or.inl (List.mem_append_right ex ?_)
              rw [hflt, List.mem_filter]
              constructor
              · simp [recKeys, hq1]
              · simp only [Bool.not_eq_true']
                have : ¬ ("lyrics" ∈ EXPORT_BASE_COLS ++ ex) := by
                  simp only [List.mem_append]
                  rintro (h | h)
                  · exact absurd h (by decide)
                  · exact hin h
                simpa using this
          · exact Or.inr ⟨q, hq, hq1⟩
    · rw [hs2]
      constructor
      · rintro (h | h)
        · rcases List.mem_append.mp h with h | h
          · exact Or.inl h
          · obtain ⟨h1, -⟩ := hfltmem _ h
            simp only [recKeys, List.append_assoc, List.mem_append] at h1
            rcases h1 with h1 | h1 | h1
            · exact absurd h1 (by decide)
            · exfalso; cases hr : r.1 <;> rw [hr] at h1 <;> simp at h1
            · refine Or.inr ⟨r, List.mem_cons_self r rs, ?_⟩
              cases hr : r.2
              · rw [hr] at h1; simp at h1
              · rfl
        · obtain ⟨q, hq, hq1⟩ := h
          exact Or.inr ⟨q, List.mem_cons_of_mem r hq, hq1⟩
      · rintro (h | ⟨q, hq, hq1⟩)
        · exact Or.inl (List.mem_append_left flt h)
        · rcases List.mem_cons.mp hq with rfl | hq
          · by_cases hin : "synced_lyrics" ∈ ex
            · exact Or.inl (List.mem_append_left flt hin)
            · refine Or.inl (List.mem_append_right ex ?_)
              rw [hflt, List.mem_filter]
              constructor
              · simp [recKeys, hq1]
              · simp only [Bool.not_eq_true']
                have : ¬ ("synced_lyrics" ∈ EXPORT_BASE_COLS ++ ex) := by
                  simp only [List.mem_append]
                  rintro (h | h)
                  · exact absurd h (by decide)
                  · exact hin h
                simpa using this
          · exact Or.inr ⟨q, hq, hq1⟩

/-- C6 (amended): for every non-empty record batch, the fresh-CSV header
starts with the canonical twelve columns `filename, title, artist, album,
tracknumber, disc, genre, date, composer, comments, length, bitrate` in
that order, and any `lyrics` / `synced_lyrics` columns come *after*
`length` and `bitrate`, present precisely when some record has the
corresponding lyric kind. -/
theorem c6_amended (recs : List (Bool × Bool)) (hne : recs ≠ []) :
    ∃ extra, exportColumns recs = EXPORT_BASE_COLS ++ extra
      ∧ (∀ c ∈ extra, c = "lyrics" ∨ c = "synced_lyrics")
      ∧ ("lyrics" ∈ extra ↔ ∃ r ∈ recs, r.1 = true)
      ∧ ("synced_lyrics" ∈ extra ↔ ∃ r ∈ recs, r.2 = true) := by
  obtain ⟨r, rs, rfl⟩ : ∃ r rs, recs = r :: rs := by
    cases recs with
    | nil => exact absurd rfl hne
    | cons r rs => exact ⟨r, rs, rfl⟩
  have hstart : addNewCols [] (recKeys r.1 r.2)
      = EXPORT_BASE_COLS
        ++ ((if r.1 then ["lyrics"] else []) ++ (if r.2 then ["synced_lyrics"] else [])) := by
    cases hr1 : r.1 <;> cases hr2 : r.2 <;>
      simp [addNewCols, recKeys, EXPORT_BASE_COLS]
  have hex0 : ∀ c ∈ (if r.1 then ["lyrics"] else [])
      ++ (if r.2 then ["synced_lyrics"] else []), c = "lyrics" ∨ c = "synced_lyrics" := by
    intro c hc
    rcases List.mem_append.mp hc with h | h
    · left; cases hr : r.1 <;> rw [hr] at h <;> simpa using h
    · right; cases hr : r.2 <;> rw [hr] at h <;> simpa using h
  obtain ⟨ex2, heq, hex2, hl2, hs2⟩ := exportColumns_aux rs _ hex0
  refine ⟨ex2, ?_, hex2, ?_, ?_⟩
  · show (r :: rs).foldl (fun acc q => addNewCols acc (recKeys q.1 q.2)) [] = _
    rw [List.foldl_cons, hstart, heq]
  · rw [hl2]
    simp only [List.mem_append, List.mem_cons]
    constructor
    · rintro ((h | h) | ⟨q, hq, hq1⟩)
      · refine ⟨r, Or.inl rfl, ?_⟩
        cases hr : r.1
        · rw [hr] at h; simp at h
        · rfl
      · exfalso; cases hr : r.2 <;> rw [hr] at h <;> simp at h
      · exact ⟨q, Or.inr hq, hq1⟩
    · rintro ⟨q, hq | hq, hq1⟩
      · subst hq; exact Or.inl (Or.inl (by rw [hq1]; simp))
      · exact Or.inr ⟨q, hq, hq1⟩
  · rw [hs2]
    simp only [List.mem_append, List.mem_cons]
    constructor
    · rintro ((h | h) | ⟨q, hq, hq1⟩)
      · exfalso; cases hr : r.1 <;> rw [hr] at h <;> simp at h
      · refine ⟨r, Or.inl rfl, ?_⟩
        cases hr : r.2
        · rw [hr] at h; simp at h
        · rfl
      · exact ⟨q, Or.inr hq, hq1⟩
    · rintro ⟨q, hq | hq, hq1⟩
      · subst hq; exact Or.inl (Or.inr (by rw [hq1]; simp))
      · exact Or.inr ⟨q, hq, hq1⟩

/-- C6 (witness): the amended theorem at a two-record batch where only
the second record has lyrics and none has synced lyrics. -/
theorem c6_witness :
    ∃ extra, exportColumns [(false, false), (true, false)] = EXPORT_BASE_COLS ++ extra
      ∧ (∀ c ∈ extra, c = "lyrics" ∨ c = "synced_lyrics")
      ∧ ("lyrics" ∈ extra ↔ ∃ r ∈ [((false : Bool), (false : Bool)), (true, false)], r.1 = true)
      ∧ ("synced_lyrics" ∈ extra ↔ ∃ r ∈ [((false : Bool), (false : Bool)), (true, false)], r.2 = true) :=
  c6_amended [(false, false), (true, false)] (by decide)

/-! ## C4: CSV append/union

`export_metadata` lines 124-147: read the existing CSV; if it has data,
add each column of `df_new` missing from it as an all-empty-string
column, rewrite it with the expanded header, then append `df_new` with
`columns=existing_cols` (the expanded order).  `to_csv(columns=cols)`
selects labels via `.loc[:, cols]`, which raises `KeyError` when any
label is absent from the frame — modelled as `none`. -/

/-- A data frame: a header and rows of cells (cells are strings;
`keep_default_na=False`). -/
structure Table where
  header : List String
  rows : List (List String)
deriving DecidableEq, Repr

/-- Position of a column label in a header (first occurrence). -/
def colIndex (header : List String) (c : String) : Option Nat :=
  match header with
  | [] => Option.none
  | h :: t => if h = c then some 0 else (colIndex t c).map (· + 1)

/-- The cell of a row under a column label. -/
def cellAt (header row : List String) (c : String) : String :=
  match colIndex header c with
  | some i => row.getD i ""
  | Option.none => ""

/-- `missing = [c for c in df_new.columns if c not in existing_cols]`. -/
def missingCols (df_exist df_new : Table) : List String :=
  df_new.header.filter (fun c => !df_exist.header.contains c)

/-- The append path of `export_metadata` for a non-empty existing table:
fill missing columns of the existing frame with `""`, expand the header,
and append the new rows selected in the expanded column order; `none`
models the `KeyError` of selecting a column absent from `df_new`. -/
def appendExport (df_exist df_new : Table) : Option Table :=
  let missing := missingCols df_exist df_new
  let cols := df_exist.header ++ missing
  let exist2 := df_exist.rows.map (fun r => r ++ missing.map (fun _ => ""))
  if cols.all (fun c => df_new.header.contains c) then
    some ⟨cols, exist2 ++ df_new.rows.map (fun r => cols.map (cellAt df_new.header r))⟩
  else Option.none

/-- C4 (counterexample): a new batch whose fields are a strict subset of
the existing columns (existing `filename, lyrics`; new only `filename`)
does not produce the claimed union table at all — the append raises
(`KeyError`) and fails. -/
theorem c4_counterexample :
    appendExport ⟨["filename", "lyrics"], [["a.mp3", "la"]]⟩ ⟨["filename"], [["b.mp3"]]⟩
      = Option.none := by
  decide

theorem colIndex_lt {header : List String} {c : String} {i : Nat}
    (h : colIndex header c = some i) : i < header.length := by
  induction header generalizing i with
  | nil => exact absurd h (by simp [colIndex])
  | cons a t ih =>
    simp only [colIndex] at h
    by_cases ha : a = c
    · rw [if_pos ha] at h
      cases h
      simp
    · rw [if_neg ha] at h
      obtain ⟨j, hj, rfl⟩ := Option.map_eq_some'.mp h
      have := ih hj
      simp only [List.length_cons]
      omega

theorem colIndex_mem {header : List String} {c : String} (h : c ∈ header) :
    ∃ i, colIndex header c = some i := by
  induction header with
  | nil => cases h
  | cons a t ih =>
    by_cases ha : a = c
    · exact ⟨0, by simp [colIndex, ha]⟩
    · rcases List.mem_cons.mp h with h1 | h1
      · exact absurd h1.symm ha
      · obtain ⟨i, hi⟩ := ih h1
        exact ⟨i + 1, by simp [colIndex, ha, hi]⟩

theorem colIndex_not_mem {header : List String} {c : String} (h : c ∉ header) :
    colIndex header c = Option.none := by
  induction header with
  | nil => rfl
  | cons a t ih =>
    have ha : a ≠ c := fun e => h (by rw [e]; exact List.mem_cons_self c t)
    have ht : c ∉ t := fun e => h (List.mem_cons_of_mem a e)
    simp [colIndex, ha, ih ht]

theorem colIndex_append_left {l1 : List String} (l2 : List String) {c : String}
    (h : c ∈ l1) : colIndex (l1 ++ l2) c = colIndex l1 c := by
  induction l1 with
  | nil => cases h
  | cons a t ih =>
    by_cases ha : a = c
    · simp [colIndex, ha]
    · rcases List.mem_cons.mp h with h1 | h1
      · exact absurd h1.symm ha
      · simp [colIndex, ha, ih h1]

theorem colIndex_append_right {l1 : List String} (l2 : List String) {c : String}
    (h : c ∉ l1) : colIndex (l1 ++ l2) c = (colIndex l2 c).map (· + l1.length) := by
  induction l1 with
  | nil => simp
  | cons a t ih =>
    have ha : a ≠ c := fun e => h (by rw [e]; exact List.mem_cons_self c t)
    have ht : c ∉ t := fun e => h (List.mem_cons_of_mem a e)
    simp only [List.cons_append, colIndex, List.append_eq, ha, if_false, ih ht,
      Option.map_map, List.length_cons]
    cases colIndex l2 c with
    | none => rfl
    | some j =>
      simp only [Option.map_some', Function.comp_apply]
      exact congrArg some (by omega)

theorem getD_const_map (l : List String) (j : Nat) :
    (l.map (fun _ => "")).getD j "" = "" := by
  induction l generalizing j with
  | nil => rfl
  | cons a t ih =>
    cases j with
    | zero => rfl
    | succ j => exact ih j

theorem mem_missingCols {ex nw : Table} {c : String} :
    c ∈ missingCols ex nw ↔ (c ∈ nw.header ∧ c ∉ ex.header) := by
  simp [missingCols, List.mem_filter]

theorem getD_map_of_lt {α β : Type} (f : α → β) (l : List α) {i : Nat}
    (h : i < l.length) (d : β) (d2 : α) : (l.map f).getD i d = f (l.getD i d2) := by
  rw [List.getD_eq_getElem?_getD, List.getElem?_map, List.getElem?_eq_getElem h,
    List.getD_eq_getElem?_getD, List.getElem?_eq_getElem h]
  rfl

theorem getD_mem_of_lt {α : Type} (l : List α) {i : Nat} (h : i < l.length) (d : α) :
    l.getD i d ∈ l := by
  rw [List.getD_eq_getElem?_getD, List.getElem?_eq_getElem h]
  exact List.getElem_mem _

/-- C4 (amended): when the existing table is non-empty and every existing
column also occurs among the new records' fields (and rows are aligned
with the header), the append produces the claimed table: the header is
the union of the existing columns and the new fields with the existing
columns as an unchanged prefix, every pre-existing row keeps each shared
cell and carries `""` in every newly-added column, and the new rows are
appended in the expanded column order.  When some existing column is
missing from the new records — e.g. a strict-subset batch — the append
instead fails with a `KeyError` (see the counterexample), so the claim's
"every shape of new-record field set" does not hold. -/
theorem c4_amended (ex nw : Table)
    (hsub : ∀ c ∈ ex.header, c ∈ nw.header)
    (hlen : ∀ r ∈ ex.rows, r.length = ex.header.length) :
    ∃ t, appendExport ex nw = some t
      ∧ (∀ c, c ∈ t.header ↔ (c ∈ ex.header ∨ c ∈ nw.header))
      ∧ (∃ extra, t.header = ex.header ++ extra)
      ∧ t.rows.length = ex.rows.length + nw.rows.length
      ∧ (∀ i, i < ex.rows.length →
          (∀ c ∈ ex.header, cellAt t.header (t.rows.getD i []) c
              = cellAt ex.header (ex.rows.getD i []) c)
          ∧ (∀ c ∈ t.header, c ∉ ex.header → cellAt t.header (t.rows.getD i []) c = ""))
      ∧ (∀ j, j < nw.rows.length →
          t.rows.getD (ex.rows.length + j) []
            = t.header.map (cellAt nw.header (nw.rows.getD j []))) := by
  have hcond : (ex.header ++ missingCols ex nw).all (fun c => nw.header.contains c) = true := by
    rw [List.all_eq_true]
    intro c hc
    rcases List.mem_append.mp hc with h | h
    · simpa using hsub c h
    · simpa using (mem_missingCols.mp h).1
  have happ : appendExport ex nw = some
      ⟨ex.header ++ missingCols ex nw,
        ex.rows.map (fun r => r ++ (missingCols ex nw).map (fun _ => ""))
          ++ nw.rows.map (fun r =>
              (ex.header ++ missingCols ex nw).map (cellAt nw.header r))⟩ := by
    simp only [appendExport]
    rw [if_pos hcond]
  refine ⟨_, happ, ?_, ⟨missingCols ex nw, rfl⟩, by simp, ?_, ?_⟩
  · intro c
    simp only [List.mem_append, mem_missingCols]
    constructor
    · rintro (h | ⟨h, -⟩)
      · exact Or.inl h
      · exact Or.inr h
    · rintro (h | h)
      · exact Or.inl h
      · by_cases hx : c ∈ ex.header
        · exact Or.inl hx
        · exact Or.inr ⟨h, hx⟩
  · intro i hi
    have hrow : (ex.rows.map (fun r => r ++ (missingCols ex nw).map (fun _ => ""))
          ++ nw.rows.map (fun r =>
              (ex.header ++ missingCols ex nw).map (cellAt nw.header r))).getD i []
        = (ex.rows.getD i []) ++ (missingCols ex nw).map (fun _ => "") := by
      rw [List.getD_append _ _ [] i (by simpa using hi),
        getD_map_of_lt _ _ hi [] []]
    have hrlen : (ex.rows.getD i []).length = ex.header.length :=
      hlen _ (getD_mem_of_lt ex.rows hi [])
    constructor
    · intro c hc
      obtain ⟨i0, hi0⟩ := colIndex_mem hc
      have hi0lt : i0 < ex.header.length := colIndex_lt hi0
      simp only [cellAt, hrow, colIndex_append_left _ hc, hi0]
      rw [List.getD_append _ _ "" i0 (by omega)]
    · intro c hc hnot
      have hcm : c ∈ missingCols ex nw := by
        rcases List.mem_append.mp hc with h | h
        · exact absurd h hnot
        · exact h
      obtain ⟨j, hj⟩ := colIndex_mem hcm
      simp only [cellAt, hrow, colIndex_append_right _ hnot, hj, Option.map_some']
      rw [List.getD_append_right _ _ "" (j + ex.header.length) (by omega)]
      rw [show j + ex.header.length - (ex.rows.getD i []).length = j from by omega]
      exact getD_const_map _ j
  · intro j hj
    rw [List.getD_append_right _ _ [] (ex.rows.length + j) (by simp),
      show ex.rows.length + j - (ex.rows.map
        (fun r => r ++ (missingCols ex nw).map (fun _ => ""))).length = j from by simp,
      getD_map_of_lt _ _ hj [] []]

/-- C4 (witness): the amended theorem at a concrete append — existing
table with columns `filename, title` and one row, new batch carrying
`filename, title, lyrics`. -/
theorem c4_witness :
    ∃ t, appendExport ⟨["filename", "title"], [["a.mp3", "A"]]⟩
          ⟨["filename", "title", "lyrics"], [["b.mp3", "B", "la"]]⟩ = some t
      ∧ (∀ c, c ∈ t.header ↔ (c ∈ ["filename", "title"] ∨ c ∈ ["filename", "title", "lyrics"]))
      ∧ (∃ extra, t.header = ["filename", "title"] ++ extra)
      ∧ t.rows.length = 1 + 1
      ∧ (∀ i, i < 1 →
          (∀ c ∈ ["filename", "title"], cellAt t.header (t.rows.getD i []) c
              = cellAt ["filename", "title"] ([["a.mp3", "A"]].getD i []) c)
          ∧ (∀ c ∈ t.header, c ∉ ["filename", "title"] →
              cellAt t.header (t.rows.getD i []) c = ""))
      ∧ (∀ j, j < 1 →
          t.rows.getD (1 + j) []
            = t.header.map (cellAt ["filename", "title", "lyrics"]
                ([["b.mp3", "B", "la"]].getD j []))) :=
  c4_amended ⟨["filename", "title"], [["a.mp3", "A"]]⟩
    ⟨["filename", "title", "lyrics"], [["b.mp3", "B", "la"]]⟩
    (by decide) (by decide)

end Mp3Tools

